import Mathlib

/-!
Verification of the playback-arbitration core of react-riyils:
the source resolver, the deterministic play engine (src/use-video-source.ts),
the reference-counted source cache (VideoSourceManager), and the
PlaybackController (src/use-shared-video.ts).

JavaScript `Map` objects are embedded as association lists in insertion
order; `Map.set` updates in place when the key is present and appends
otherwise, `Map.delete` removes the entry, mirroring the iteration-order
semantics the source relies on.  Asynchronous methods are split at their
`await` points into explicit start/finish phases so that arbitrary
interleavings can be quantified over.
-/

namespace Riyils

/-- Lookup in an association-list map (first binding wins, as in a JS `Map`
where keys are unique). -/
def mapFind {κ α : Type} [DecidableEq κ] : List (κ × α) → κ → Option α
  | [], _ => none
  | (k, v) :: rest, key => if k = key then some v else mapFind rest key

/-- `Map.set`: replace the binding in place when present, append otherwise. -/
def mapSet {κ α : Type} [DecidableEq κ] : List (κ × α) → κ → α → List (κ × α)
  | [], key, v => [(key, v)]
  | (k, w) :: rest, key, v =>
    if k = key then (key, v) :: rest else (k, w) :: mapSet rest key v

/-- `Map.delete`: remove the binding for a key. -/
def mapErase {κ α : Type} [DecidableEq κ] (m : List (κ × α)) (key : κ) : List (κ × α) :=
  m.filter (fun p => decide (p.1 ≠ key))

/-! ## Deterministic play engine (src/use-video-source.ts, lines 81-188)

The DOM media element is embedded as a record of the fields the engine
mutates (`muted`, `playbackRate`, `paused`), together with a behaviour
oracle describing how the environment answers the engine's asynchronous
queries: the outcome of each successive `video.play()` call and the
signals the progress-verification helpers observe. -/

/-- Outcome of one `video.play()` call as the DOM delivers it: the promise
resolves, or rejects with an error whose `name` the engine inspects. -/
inductive PlayOutcome : Type
  | resolves
  | rejects (errName : String)
deriving DecidableEq, Repr

/-- Result classification of `attemptPlay` (line 122). -/
inductive AttemptResult : Type
  | ok
  | notAllowed
  | failed
deriving DecidableEq, Repr

/-- The mutable media-element fields the engine touches. -/
structure MediaEl : Type where
  muted : Bool
  playbackRate : Int
  paused : Bool
deriving DecidableEq, Repr

/-- Environment oracle for one `playDeterministic` run: `playOutcome n` is
the outcome of the n-th `video.play()` call (0-based), and the remaining
fields are what the progress-verification helpers observe
(`requestVideoFrameCallback` availability, whether the frame callback sees
`currentTime` advance, and whether the fast/slow timed samples see it
advance). -/
structure MediaBehavior : Type where
  playOutcome : Nat → PlayOutcome
  hasFrameCallback : Bool
  frameAdvance : Bool
  fastAdvance : Bool
  slowAdvance : Bool

/-- Engine-visible state: the element plus how many `play()` calls were
issued so far (indexing into the behaviour oracle). -/
structure EngineState : Type where
  el : MediaEl
  playCalls : Nat
deriving DecidableEq, Repr

/-- Error-name classification inside `attemptPlay` (lines 128-131):
`NotAllowedError` is a policy denial, anything else is a plain failure. -/
def classifyPlayError (errName : String) : AttemptResult :=
  if errName = "NotAllowedError" then AttemptResult.notAllowed else AttemptResult.failed

/-- `attemptPlay` (lines 124-133): issue `video.play()`; a resolved call
starts playback (`paused := false`), a rejected one is classified by error
name and leaves the element as it was. -/
def attemptPlay (b : MediaBehavior) (s : EngineState) : AttemptResult × EngineState :=
  match b.playOutcome s.playCalls with
  | PlayOutcome.resolves =>
    (AttemptResult.ok,
      { s with playCalls := s.playCalls + 1, el := { s.el with paused := false } })
  | PlayOutcome.rejects errName =>
    (classifyPlayError errName, { s with playCalls := s.playCalls + 1 })

/-- `verifyProgressByFrames` (lines 96-120): false when the element lacks
`requestVideoFrameCallback`, otherwise whether the frame callback observed
`currentTime` advance before the timeout. -/
def verifyProgressByFrames (b : MediaBehavior) : Bool :=
  if b.hasFrameCallback then b.frameAdvance else false

/-- `verifyProgress` (lines 144-156): prefer the frame-callback signal when
available; fall through to a fast timed sample, then a slow timed sample. -/
def verifyProgress (b : MediaBehavior) : Bool :=
  let byFrames := if b.hasFrameCallback then verifyProgressByFrames b else false
  if byFrames then true
  else if b.fastAdvance then true
  else b.slowAdvance

/-- `DeterministicPlayResult` (line 135). -/
inductive DeterministicPlayResult : Type
  | playing
  | blocked
  | failed
deriving DecidableEq, Repr

/-- `DeterministicPlayOptions` (lines 137-142). -/
structure DeterministicPlayOptions : Type where
  muted : Bool
  playbackRate : Int
  allowAutoMute : Bool
  verifyMs : Nat
deriving DecidableEq, Repr

/-- `playDeterministic` (lines 158-188): set muted/playbackRate, attempt
play; on acceptance verify progress (pausing and failing on a silent
stall); on a policy denial optionally force mute and retry once; any other
rejection is a failure. -/
def playDeterministic (b : MediaBehavior) (opts : DeterministicPlayOptions)
    (s0 : EngineState) : DeterministicPlayResult × EngineState :=
  let s := { s0 with
    el := { s0.el with muted := opts.muted, playbackRate := opts.playbackRate } }
  match attemptPlay b s with
  | (AttemptResult.ok, s1) =>
    if verifyProgress b then (DeterministicPlayResult.playing, s1)
    else (DeterministicPlayResult.failed, { s1 with el := { s1.el with paused := true } })
  | (AttemptResult.notAllowed, s1) =>
    if !opts.allowAutoMute then (DeterministicPlayResult.blocked, s1)
    else
      let s2 := { s1 with el := { s1.el with muted := true } }
      match attemptPlay b s2 with
      | (AttemptResult.ok, s3) =>
        if verifyProgress b then (DeterministicPlayResult.playing, s3)
        else (DeterministicPlayResult.failed, { s3 with el := { s3.el with paused := true } })
      | (_, s3) => (DeterministicPlayResult.blocked, s3)
  | (AttemptResult.failed, s1) => (DeterministicPlayResult.failed, s1)

/-! ## Source resolver (src/use-video-source.ts, lines 4-54)

`selectOptimalSource` reads two ambient signals, the initial bandwidth
estimate and the small-screen query; they are passed explicitly here.
JavaScript `||` on optional strings treats both `undefined` and the empty
string as falsy, which `jsOr` reproduces. -/

/-- `VideoQualityVariants` (lines 4-8); an absent tier is `none`. -/
structure VideoQualityVariants : Type where
  low : Option String
  mid : Option String
  high : Option String
deriving DecidableEq, Repr

/-- The `src` argument: a plain string or a variant set (an absent argument
is embedded as `none` at use sites). -/
inductive VideoSrc : Type
  | str (s : String)
  | variants (v : VideoQualityVariants)
deriving DecidableEq, Repr

/-- JavaScript `a || b` on `string | undefined` values: keep `a` when it is
a non-empty string, otherwise yield `b` (even when `b` is falsy). -/
def jsOr (a b : Option String) : Option String :=
  match a with
  | some s => if s = "" then b else some s
  | none => b

/-- `selectOptimalSource` (lines 37-44) with the two ambient reads
(`getInitialBandwidthEstimate()` and `isSmallScreen()`) supplied as
`bandwidth` and `isMobile`. -/
def selectOptimalSource (bandwidth : Nat) (isMobile : Bool)
    (variants : VideoQualityVariants) : Option String :=
  if bandwidth < 500000 ∨ isMobile = true then
    jsOr variants.low (jsOr variants.mid variants.high)
  else if bandwidth < 2000000 then
    jsOr variants.mid (jsOr variants.high variants.low)
  else
    jsOr variants.high (jsOr variants.mid variants.low)

/-- `resolveFinalUrl` (lines 46-50): `if (!src) return undefined` is true
for an absent argument and for the empty string; a (non-empty) plain string
is returned unchanged; a variant set goes through `selectOptimalSource`. -/
def resolveFinalUrl (bandwidth : Nat) (isMobile : Bool) :
    Option VideoSrc → Option String
  | none => none
  | some (VideoSrc.str s) => if s = "" then none else some s
  | some (VideoSrc.variants v) => selectOptimalSource bandwidth isMobile v

/-- Prefix test on character lists (`String.startsWith` over `.data`). -/
def charListStartsWith : List Char → List Char → Bool
  | _, [] => true
  | [], _ :: _ => false
  | c :: cs, p :: ps => c = p && charListStartsWith cs ps

/-- Substring occurrence test on character lists (`String.includes`). -/
def charListContains : List Char → List Char → Bool
  | [], pat => pat.isEmpty
  | l :: rest, pat => charListStartsWith (l :: rest) pat || charListContains rest pat

/-- `isHlsUrl` (lines 52-54): `url.includes('.m3u8')`. -/
def isHlsUrl (url : String) : Bool :=
  charListContains url.data ".m3u8".data

/-! ## Playback controller (src/use-shared-video.ts, lines 26-93)

`PlaybackController.play` suspends exactly once, at
`await playDeterministic(...)` (line 74).  It is therefore embedded as two
atomic phases: `playStart` (the synchronous prefix up to the await, which
returns the minted token) and `playFinish` (the continuation, which
receives the engine result).  Media elements are identified by a numeric
handle; the controller state records, besides the session map and global
token, the set of handles the controller has called `pause()` on, so that
the pausing effects of cancellation are observable. -/

/-- `PlaybackScope` (line 26). -/
inductive PlaybackScope : Type
  | viewer
  | carousel
deriving DecidableEq, Repr

/-- The scope's string form used in key building. -/
def PlaybackScope.str : PlaybackScope → String
  | PlaybackScope.viewer => "viewer"
  | PlaybackScope.carousel => "carousel"

/-- `buildKey` (lines 42-44). -/
def buildKey (scope : PlaybackScope) (id : String) : String :=
  scope.str ++ ":" ++ id

/-- `PlaybackSession` (lines 28-31); `video` is the element handle. -/
structure PlaybackSession : Type where
  token : Nat
  video : Nat
deriving DecidableEq, Repr

/-- `PlaybackRequest` (lines 33-38). -/
structure PlaybackRequest : Type where
  scope : PlaybackScope
  id : String
  video : Nat
  options : DeterministicPlayOptions
deriving DecidableEq, Repr

/-- `PlaybackResult` (line 40). -/
inductive PlaybackResult : Type
  | playing
  | blocked
  | failed
  | cancelled
deriving DecidableEq, Repr

/-- The engine result seen as a controller result (the controller returns
the engine's own value on the token-match path). -/
def liftEngineResult : DeterministicPlayResult → PlaybackResult
  | DeterministicPlayResult.playing => PlaybackResult.playing
  | DeterministicPlayResult.blocked => PlaybackResult.blocked
  | DeterministicPlayResult.failed => PlaybackResult.failed

/-- Controller state: the private `sessions` map and `globalToken`
(lines 47-48), plus the handles of media elements the controller has
paused (the observable effect of `existing.video.pause()`). -/
structure CtrlState : Type where
  sessions : List (String × PlaybackSession)
  globalToken : Nat
  pausedVideos : List Nat
deriving DecidableEq, Repr

/-- Record a `video.pause()` call issued by the controller. -/
def pauseVideo (video : Nat) (s : CtrlState) : CtrlState :=
  { s with pausedVideos := video :: s.pausedVideos }

/-- `nextToken` (lines 50-53). -/
def nextToken (s : CtrlState) : Nat × CtrlState :=
  let t := s.globalToken + 1
  (t, { s with globalToken := t })

/-- `cancelSession` (lines 55-60): when a session exists for the key, pause
its media and drop the record. -/
def cancelSession (key : String) (s : CtrlState) : CtrlState :=
  match mapFind s.sessions key with
  | none => s
  | some existing =>
    let s1 := pauseVideo existing.video s
    { s1 with sessions := mapErase s1.sessions key }

/-- The `forEach` loop body of `cancelAllExcept` over a snapshot of keys. -/
def cancelList (key : String) (ks : List String) (s : CtrlState) : CtrlState :=
  ks.foldl (fun st k => if k ≠ key then cancelSession k st else st) s

/-- `cancelAllExcept` (lines 62-66): snapshot the keys
(`Array.from(this.sessions.keys())`), cancel every one other than `key`. -/
def cancelAllExcept (key : String) (s : CtrlState) : CtrlState :=
  cancelList key (s.sessions.map Prod.fst) s

/-- Synchronous prefix of `play` (lines 68-73): build the key, cancel all
other sessions, mint a token, discard any prior session for the key, and
record the new pending session. -/
def playStart (req : PlaybackRequest) (s : CtrlState) : Nat × CtrlState :=
  let key := buildKey req.scope req.id
  let s1 := cancelAllExcept key s
  let (token, s2) := nextToken s1
  let s3 := cancelSession key s2
  (token, { s3 with
    sessions := mapSet s3.sessions key { token := token, video := req.video } })

/-- Continuation of `play` after the engine resolves (lines 75-84): compare
the stored token with the minted one; on mismatch (or a missing session)
return `cancelled` untouched; on `playing` keep the session; otherwise
clear the session and return the engine result. -/
def playFinish (key : String) (token : Nat) (result : DeterministicPlayResult)
    (s : CtrlState) : PlaybackResult × CtrlState :=
  match mapFind s.sessions key with
  | none => (PlaybackResult.cancelled, s)
  | some current =>
    if current.token ≠ token then (PlaybackResult.cancelled, s)
    else if result = DeterministicPlayResult.playing then (PlaybackResult.playing, s)
    else (liftEngineResult result, cancelSession key s)

/-- `reset` (lines 86-88). -/
def ctrlReset (scope : PlaybackScope) (id : String) (s : CtrlState) : CtrlState :=
  cancelSession (buildKey scope id) s

/-- The `forEach` loop body of `resetAll` over a snapshot of keys. -/
def resetList (ks : List String) (s : CtrlState) : CtrlState :=
  ks.foldl (fun st k => cancelSession k st) s

/-- `resetAll` (lines 90-92). -/
def resetAll (s : CtrlState) : CtrlState :=
  resetList (s.sessions.map Prod.fst) s

/-- One atomic controller event: the synchronous prefix of a `play` call,
the resumption of an awaited `play` call with its engine result, or one of
the synchronous public methods. -/
inductive CtrlOp : Type
  | start (req : PlaybackRequest)
  | finish (key : String) (token : Nat) (result : DeterministicPlayResult)
  | reset (scope : PlaybackScope) (id : String)
  | resetAllOp
  | cancelAllExceptOp (key : String)

/-- Interpretation of one controller event. -/
def ctrlStep (s : CtrlState) : CtrlOp → CtrlState
  | CtrlOp.start req => (playStart req s).2
  | CtrlOp.finish key token result => (playFinish key token result s).2
  | CtrlOp.reset scope id => ctrlReset scope id s
  | CtrlOp.resetAllOp => resetAll s
  | CtrlOp.cancelAllExceptOp key => cancelAllExcept key s

/-- Run a sequence of controller events. -/
def ctrlRun (s : CtrlState) (ops : List CtrlOp) : CtrlState :=
  ops.foldl ctrlStep s

/-- The tokens minted by the `play` calls of an event sequence, in event
order. -/
def mintedTokens (s : CtrlState) : List CtrlOp → List Nat
  | [] => []
  | op :: rest =>
    match op with
    | CtrlOp.start req => (playStart req s).1 :: mintedTokens (ctrlStep s op) rest
    | _ => mintedTokens (ctrlStep s op) rest

/-- The controller's initial state (fresh `PlaybackController`). -/
def ctrlInit : CtrlState :=
  { sessions := [], globalToken := 0, pausedVideos := [] }

/-- The two-call race of the last-call-wins property: `play(reqA)` runs its
synchronous prefix, then `play(reqB)` on the same key runs its prefix
before `reqA`'s engine call resolves; afterwards the two engine calls
resolve in either order (`aFirst` selects which completes first).  Yields
(A's result, B's result, final state). -/
def twoPlayInterleaving (s0 : CtrlState) (reqA reqB : PlaybackRequest)
    (resA resB : DeterministicPlayResult) (aFirst : Bool) :
    PlaybackResult × PlaybackResult × CtrlState :=
  let key := buildKey reqA.scope reqA.id
  let tA := (playStart reqA s0).1
  let s1 := (playStart reqA s0).2
  let tB := (playStart reqB s1).1
  let s2 := (playStart reqB s1).2
  if aFirst then
    let s3 := (playFinish key tA resA s2).2
    ((playFinish key tA resA s2).1, (playFinish key tB resB s3).1,
      (playFinish key tB resB s3).2)
  else
    let s3 := (playFinish key tB resB s2).2
    ((playFinish key tA resA s3).1, (playFinish key tB resB s2).1,
      (playFinish key tA resA s3).2)

/-! ## Source cache / lifecycle manager (src/use-video-source.ts, lines 198-327)

`VideoSourceManager` is synchronous; its timer callbacks run later as
separate events, modelled by an explicit fire event guarded on the timer
still being registered (a cleared timer never fires).  `Hls` handles are
numbered by an allocation counter; `destroy()` calls are recorded in
`destroyedHandles`.  In the source, `ensureEntry` returns an alias of the
object stored in the cache, so `attach`'s `entry.refCount += 1` mutates
the cached entry; the embedding writes the incremented entry back through
`mapSet`. -/

/-- `Entry` (lines 198-202); `refCount` is an `Int` so that the
non-negativity invariant is a statement, not a typing artefact. -/
structure Entry : Type where
  url : String
  hls : Option Nat
  refCount : Int
deriving DecidableEq, Repr

/-- `CACHE_LIMIT` (line 204). -/
def CACHE_LIMIT : Nat := 50

/-- `DISPOSE_DELAY_MS` (line 205). -/
def DISPOSE_DELAY_MS : Nat := 30000

/-- `VideoSourceScope` (line 331). -/
inductive VideoSourceScope : Type
  | viewer
  | carousel
deriving DecidableEq, Repr

/-- Ambient environment the manager reads: the resolver signals and
`Hls.isSupported()`. -/
structure Env : Type where
  bandwidth : Nat
  isMobile : Bool
  hlsSupported : Bool
deriving DecidableEq, Repr

/-- Manager state: the `cache` and `disposeTimeouts` maps (lines 208-209),
the element `src` attributes the manager has assigned, the recorded
`hls.attachMedia` calls (handle, element), the `destroy()`ed handles, and
allocation counters for handles and timer ids. -/
structure MgrState : Type where
  cache : List (String × Entry)
  disposeTimeouts : List (String × Nat)
  videoSrc : List (Nat × String)
  hlsAttachCalls : List (Nat × Nat)
  destroyedHandles : List Nat
  nextHandle : Nat
  nextTimer : Nat
deriving DecidableEq, Repr

/-- A fresh `VideoSourceManager`. -/
def mgrInit : MgrState :=
  { cache := [], disposeTimeouts := [], videoSrc := [], hlsAttachCalls := [],
    destroyedHandles := [], nextHandle := 0, nextTimer := 0 }

/-- Record `entry.hls?.destroy()`. -/
def destroyHandle (hls : Option Nat) (s : MgrState) : MgrState :=
  match hls with
  | none => s
  | some h => { s with destroyedHandles := h :: s.destroyedHandles }

/-- The loop body of `cleanupCacheIfNeeded` (lines 213-219): walk the
entries in insertion order, destroying zero-refcount entries without a
pending dispose timer until the size drops below the limit. -/
def cleanupLoop : List (String × Entry) → MgrState → MgrState
  | [], s => s
  | (oldKey, entry) :: rest, s =>
    if entry.refCount = 0 ∧ mapFind s.disposeTimeouts oldKey = none then
      let s1 := destroyHandle entry.hls s
      let s2 := { s1 with cache := mapErase s1.cache oldKey }
      if s2.cache.length < CACHE_LIMIT then s2 else cleanupLoop rest s2
    else cleanupLoop rest s

/-- `cleanupCacheIfNeeded` (lines 211-221). -/
def cleanupCacheIfNeeded (s : MgrState) : MgrState :=
  if s.cache.length ≥ CACHE_LIMIT then cleanupLoop s.cache s else s

/-- `cancelPendingDispose` (lines 223-228): clear and forget the pending
timer, if any. -/
def cancelPendingDispose (key : String) (s : MgrState) : MgrState :=
  match mapFind s.disposeTimeouts key with
  | none => s
  | some _ => { s with disposeTimeouts := mapErase s.disposeTimeouts key }

/-- JavaScript truthiness of the `src` argument (`if (!src) return null`):
an absent argument and the empty string are falsy, objects are truthy. -/
def srcTruthy : Option VideoSrc → Bool
  | none => false
  | some (VideoSrc.str s) => s != ""
  | some (VideoSrc.variants _) => true

/-- The tail of `ensureEntry` that builds a fresh entry (lines 248-258):
run the capacity cleanup, allocate an `Hls` handle when the URL is a
manifest and `Hls` is supported, and store the new zero-refcount entry. -/
def mkNewEntry (env : Env) (key url : String) (s : MgrState) : Entry × MgrState :=
  let s1 := cleanupCacheIfNeeded s
  let (hls, s2) :=
    if isHlsUrl url ∧ env.hlsSupported = true then
      (some s1.nextHandle, { s1 with nextHandle := s1.nextHandle + 1 })
    else (none, s1)
  let entry : Entry := { url := url, hls := hls, refCount := 0 }
  (entry, { s2 with cache := mapSet s2.cache key entry })

/-- Lines 243-246 of `ensureEntry`: destroy the stale entry's handle and
delete it from the cache. -/
def eraseEntryState (key : String) (hls : Option Nat) (s1 : MgrState) : MgrState :=
  let s2 := destroyHandle hls s1
  { s2 with cache := mapErase s2.cache key }

/-- `ensureEntry` (lines 230-259). -/
def ensureEntry (env : Env) (key : String) (src : Option VideoSrc) (s : MgrState) :
    Option Entry × MgrState :=
  if srcTruthy src = false then (none, s)
  else
    match resolveFinalUrl env.bandwidth env.isMobile src with
    | none => (none, s)
    | some url =>
      let s1 := cancelPendingDispose key s
      match mapFind s1.cache key with
      | some existing =>
        if existing.url = url then (some existing, s1)
        else
          let s3 := eraseEntryState key existing.hls s1
          (some (mkNewEntry env key url s3).1, (mkNewEntry env key url s3).2)
      | none =>
        (some (mkNewEntry env key url s1).1, (mkNewEntry env key url s1).2)

/-- `attach` (lines 276-290): ensure the entry, bump its refcount (an
in-place mutation of the cached object, written back here), then either
hand the element to the `Hls` handle or assign `video.src` when it
differs from the resolved URL. -/
def attach (env : Env) (videoId : Nat) (key : String) (src : Option VideoSrc)
    (s : MgrState) : MgrState :=
  match ensureEntry env key src s with
  | (none, s1) => s1
  | (some entry0, s1) =>
    let entry := { entry0 with refCount := entry0.refCount + 1 }
    let s2 := { s1 with cache := mapSet s1.cache key entry }
    match entry.hls with
    | some h => { s2 with hlsAttachCalls := s2.hlsAttachCalls ++ [(h, videoId)] }
    | none =>
      if mapFind s2.videoSrc videoId ≠ some entry.url then
        { s2 with videoSrc := mapSet s2.videoSrc videoId entry.url }
      else s2

/-- `detachMedia` (lines 190-196) as it affects the tracked state: the
element's `src` attribute is removed. -/
def detachMediaState (videoId : Nat) (s : MgrState) : MgrState :=
  { s with videoSrc := mapErase s.videoSrc videoId }

/-- `detach` (lines 292-317): floor-decrement the refcount; at zero,
restart the disposal timer; for the viewer scope with an element supplied,
eagerly release the element's source. -/
def detach (key : String) (videoId : Option Nat) (scope : Option VideoSourceScope)
    (s : MgrState) : MgrState :=
  match mapFind s.cache key with
  | none => s
  | some entry0 =>
    let entry := { entry0 with refCount := max 0 (entry0.refCount - 1) }
    let s1 := { s with cache := mapSet s.cache key entry }
    let s2 :=
      if entry.refCount ≤ 0 then
        let s1a := cancelPendingDispose key s1
        let tid := s1a.nextTimer
        let s1b := { s1a with nextTimer := s1a.nextTimer + 1 }
        { s1b with disposeTimeouts := mapSet s1b.disposeTimeouts key tid }
      else s1
    match scope, videoId with
    | some VideoSourceScope.viewer, some v => detachMediaState v s2
    | _, _ => s2

/-- The disposal-timer callback scheduled by `detach` (lines 302-311),
firing only while still registered (a cleared timer never runs): destroy
and drop the entry when its refcount is still ≤ 0, then forget the
timer. -/
def fireDisposeTimer (key : String) (s : MgrState) : MgrState :=
  match mapFind s.disposeTimeouts key with
  | none => s
  | some _ =>
    let s1 :=
      match mapFind s.cache key with
      | some entry =>
        if entry.refCount ≤ 0 then
          let sa := destroyHandle entry.hls s
          { sa with cache := mapErase sa.cache key }
        else s
      | none => s
    { s1 with disposeTimeouts := mapErase s1.disposeTimeouts key }

/-- `reset` (lines 319-326). -/
def mgrReset (key : String) (s : MgrState) : MgrState :=
  let s1 := cancelPendingDispose key s
  match mapFind s1.cache key with
  | none => s1
  | some entry =>
    let s2 := destroyHandle entry.hls s1
    { s2 with cache := mapErase s2.cache key }

/-- One event of the attach/detach/timer life of a single cache key. -/
inductive CacheOp : Type
  | attachOp (videoId : Nat) (src : Option VideoSrc)
  | detachOp (videoId : Option Nat) (scope : Option VideoSourceScope)
  | fireTimerOp

/-- Interpretation of one cache event, all targeting the key `key`. -/
def cacheStep (env : Env) (key : String) (s : MgrState) : CacheOp → MgrState
  | CacheOp.attachOp videoId src => attach env videoId key src s
  | CacheOp.detachOp videoId scope => detach key videoId scope s
  | CacheOp.fireTimerOp => fireDisposeTimer key s

/-- Run a sequence of cache events on one key. -/
def cacheRun (env : Env) (key : String) (s : MgrState) (ops : List CacheOp) : MgrState :=
  ops.foldl (cacheStep env key) s

/-- Every cache entry has a non-negative reference count. -/
def EntriesNonneg (s : MgrState) : Prop :=
  ∀ p ∈ s.cache, (0 : Int) ≤ p.2.refCount

/-- Any entry stored at `key` with a positive refcount has resolved URL
`u`. -/
def KeyUrl (key u : String) (s : MgrState) : Prop :=
  ∀ e, mapFind s.cache key = some e → 0 < e.refCount → e.url = u

/-- Every attach event of a sequence carries a source that resolves to the
URL `u` (the same-URL proviso of the amended refcount claim). -/
def AttachesTo (env : Env) (u : String) : CacheOp → Prop
  | CacheOp.attachOp _ src => resolveFinalUrl env.bandwidth env.isMobile src = some u
  | CacheOp.detachOp _ _ => True
  | CacheOp.fireTimerOp => True

/-! ## Concrete instances used by witnesses and counterexamples -/

/-- A media element in its typical pre-play state. -/
def elInit : MediaEl :=
  { muted := false, playbackRate := 1, paused := true }

/-- Engine state before the first `play()` call of a run. -/
def engineInit : EngineState :=
  { el := elInit, playCalls := 0 }

/-- Options with the muted-fallback enabled. -/
def optsAuto : DeterministicPlayOptions :=
  { muted := false, playbackRate := 1, allowAutoMute := true, verifyMs := 500 }

/-- A media stub whose first `play()` is policy-denied, whose second
resolves, and whose playback demonstrably progresses. -/
def stubMutedOk : MediaBehavior :=
  { playOutcome := fun n =>
      if n = 0 then PlayOutcome.rejects "NotAllowedError" else PlayOutcome.resolves,
    hasFrameCallback := true, frameAdvance := true,
    fastAdvance := true, slowAdvance := true }

/-- A media stub whose first `play()` is policy-denied, whose second
resolves, but whose `currentTime` never advances. -/
def stubRetryStalls : MediaBehavior :=
  { playOutcome := fun n =>
      if n = 0 then PlayOutcome.rejects "NotAllowedError" else PlayOutcome.resolves,
    hasFrameCallback := false, frameAdvance := false,
    fastAdvance := false, slowAdvance := false }

/-- A media stub whose `play()` resolves but whose `currentTime` never
advances. -/
def stubSilentStall : MediaBehavior :=
  { playOutcome := fun _ => PlayOutcome.resolves,
    hasFrameCallback := true, frameAdvance := false,
    fastAdvance := false, slowAdvance := false }

/-- An option-valued string is a usable (non-empty) variant. -/
def optNonempty : Option String → Bool
  | some s => s != ""
  | none => false

/-- The empty variant set, `resolve({})`. -/
def noVariants : VideoQualityVariants :=
  { low := none, mid := none, high := none }

/-- The variant set `{low: 'a'}`. -/
def lowOnlyVariants : VideoQualityVariants :=
  { low := some "a", mid := none, high := none }

/-- A controller holding one live carousel session (video handle 5). -/
def crossScopeState : CtrlState :=
  { sessions := [("carousel:c", { token := 1, video := 5 })],
    globalToken := 1, pausedVideos := [] }

/-- A viewer-scope play request for video handle 7. -/
def viewerReq : PlaybackRequest :=
  { scope := PlaybackScope.viewer, id := "x", video := 7, options := optsAuto }

/-- A controller whose stored session for `viewer:x` still carries the
token (3) its own `play` call minted. -/
def matchedState : CtrlState :=
  { sessions := [("viewer:x", { token := 3, video := 7 })],
    globalToken := 3, pausedVideos := [] }

/-- A typical desktop environment with streaming-engine support. -/
def envPlain : Env :=
  { bandwidth := 1000000, isMobile := false, hlsSupported := true }

/-- A plain progressive source. -/
def srcMp4 : Option VideoSrc := some (VideoSrc.str "a.mp4")

/-- Two manifest sources resolving to different URLs. -/
def srcHlsA : Option VideoSrc := some (VideoSrc.str "a.m3u8")

def srcHlsB : Option VideoSrc := some (VideoSrc.str "b.m3u8")

/-! ## Association-map lemmas -/

theorem mapFind_mapSet_self {κ α : Type} [DecidableEq κ] (m : List (κ × α)) (k : κ) (v : α) :
    mapFind (mapSet m k v) k = some v := by
  induction m with
  | nil => simp [mapSet, mapFind]
  | cons p rest ih =>
    obtain ⟨k', w⟩ := p
    by_cases h : k' = k <;> simp [mapSet, mapFind, h, ih]

theorem mapFind_mapSet_ne {κ α : Type} [DecidableEq κ] (m : List (κ × α)) (k k' : κ) (v : α)
    (h : k ≠ k') : mapFind (mapSet m k v) k' = mapFind m k' := by
  induction m with
  | nil => simp [mapSet, mapFind, h]
  | cons p rest ih =>
    obtain ⟨k'', w⟩ := p
    by_cases h2 : k'' = k
    · subst h2
      simp [mapSet, mapFind, h]
    · simp [mapSet, mapFind, h2, ih]

theorem mapErase_cons {κ α : Type} [DecidableEq κ] (k' : κ) (w : α) (rest : List (κ × α))
    (k : κ) :
    mapErase ((k', w) :: rest) k =
      if k' = k then mapErase rest k else (k', w) :: mapErase rest k := by
  by_cases h : k' = k <;> simp [mapErase, List.filter, h]

theorem mapFind_mapErase_self {κ α : Type} [DecidableEq κ] (m : List (κ × α)) (k : κ) :
    mapFind (mapErase m k) k = none := by
  induction m with
  | nil => simp [mapErase, mapFind]
  | cons p rest ih =>
    obtain ⟨k', w⟩ := p
    rw [mapErase_cons]
    by_cases h : k' = k
    · simpa [h] using ih
    · simpa [mapFind, h] using ih

theorem mapFind_mapErase_ne {κ α : Type} [DecidableEq κ] (m : List (κ × α)) (k k' : κ)
    (h : k ≠ k') : mapFind (mapErase m k) k' = mapFind m k' := by
  induction m with
  | nil => simp [mapErase, mapFind]
  | cons p rest ih =>
    obtain ⟨k'', w⟩ := p
    rw [mapErase_cons]
    by_cases h2 : k'' = k
    · subst h2
      have hne : ¬ (k'' = k') := h
      simp [mapFind, hne, ih]
    · by_cases h3 : k'' = k'
      · subst h3
        simp [mapFind, Ne.symm h]
      · simp [mapFind, h2, h3, ih]

theorem mapFind_mem {κ α : Type} [DecidableEq κ] {m : List (κ × α)} {k : κ} {v : α}
    (h : mapFind m k = some v) : (k, v) ∈ m := by
  induction m with
  | nil => simp [mapFind] at h
  | cons p rest ih =>
    obtain ⟨k', w⟩ := p
    by_cases h2 : k' = k
    · subst h2
      simp [mapFind] at h
      subst h
      exact List.mem_cons_self _ _
    · simp [mapFind, h2] at h
      exact List.mem_cons_of_mem _ (ih h)

theorem mapFind_eq_none_of_not_mem {κ α : Type} [DecidableEq κ] {m : List (κ × α)} {k : κ}
    (h : ∀ p ∈ m, p.1 ≠ k) : mapFind m k = none := by
  induction m with
  | nil => simp [mapFind]
  | cons p rest ih =>
    obtain ⟨k', w⟩ := p
    have hk : k' ≠ k := h (k', w) (List.mem_cons_self _ _)
    simp [mapFind, hk]
    exact ih (fun q hq => h q (List.mem_cons_of_mem _ hq))

/-! ## Controller lemmas -/

theorem mapErase_eq_of_find_none {κ α : Type} [DecidableEq κ] {m : List (κ × α)} {k : κ}
    (h : mapFind m k = none) : mapErase m k = m := by
  induction m with
  | nil => simp [mapErase]
  | cons p rest ih =>
    obtain ⟨k', w⟩ := p
    by_cases hk : k' = k
    · simp [mapFind, hk] at h
    · simp [mapFind, hk] at h
      rw [mapErase_cons, if_neg hk, ih h]

theorem mapFind_eq_some_of_mem_nodup {κ α : Type} [DecidableEq κ] {m : List (κ × α)}
    (hnd : (m.map Prod.fst).Nodup) {k : κ} {v : α} (hm : (k, v) ∈ m) :
    mapFind m k = some v := by
  induction m with
  | nil => simp at hm
  | cons p rest ih =>
    obtain ⟨k', w⟩ := p
    rcases List.mem_cons.mp hm with h | h
    · obtain ⟨h1, h2⟩ := Prod.mk.injEq .. ▸ h.symm
      simp [mapFind, h1.symm, h2]
    · have hk : k' ≠ k := by
        intro he
        subst he
        have : k' ∈ rest.map Prod.fst := List.mem_map_of_mem Prod.fst h
        exact (List.nodup_cons.mp hnd).1 this
      simp [mapFind, hk]
      exact ih (List.nodup_cons.mp hnd).2 h

theorem mapErase_keys_sublist {κ α : Type} [DecidableEq κ] (m : List (κ × α)) (k : κ) :
    ((mapErase m k).map Prod.fst).Sublist (m.map Prod.fst) :=
  List.Sublist.map Prod.fst (List.filter_sublist m)

theorem cancelSession_sessions (k : String) (s : CtrlState) :
    (cancelSession k s).sessions = mapErase s.sessions k := by
  cases h : mapFind s.sessions k with
  | none => simp [cancelSession, h, mapErase_eq_of_find_none h]
  | some e => simp [cancelSession, h, pauseVideo]

theorem cancelSession_globalToken (k : String) (s : CtrlState) :
    (cancelSession k s).globalToken = s.globalToken := by
  cases h : mapFind s.sessions k with
  | none => simp [cancelSession, h]
  | some e => simp [cancelSession, h, pauseVideo]

theorem cancelSession_paused_mono (k : String) (s : CtrlState) {v : Nat}
    (hv : v ∈ s.pausedVideos) : v ∈ (cancelSession k s).pausedVideos := by
  cases h : mapFind s.sessions k with
  | none => simpa [cancelSession, h] using hv
  | some e => simp [cancelSession, h, pauseVideo, hv]

theorem cancelList_globalToken (key : String) (ks : List String) (s : CtrlState) :
    (cancelList key ks s).globalToken = s.globalToken := by
  induction ks generalizing s with
  | nil => rfl
  | cons k ks ih =>
    by_cases hk : k = key
    · have hstep : cancelList key (k :: ks) s = cancelList key ks s := by
        simp [cancelList, hk]
      rw [hstep, ih]
    · have hstep : cancelList key (k :: ks) s = cancelList key ks (cancelSession k s) := by
        simp [cancelList, hk]
      rw [hstep, ih, cancelSession_globalToken]

theorem cancelList_paused_mono (key : String) (ks : List String) (s : CtrlState) {v : Nat}
    (hv : v ∈ s.pausedVideos) : v ∈ (cancelList key ks s).pausedVideos := by
  induction ks generalizing s with
  | nil => exact hv
  | cons k ks ih =>
    by_cases hk : k = key
    · have hstep : cancelList key (k :: ks) s = cancelList key ks s := by
        simp [cancelList, hk]
      rw [hstep]
      exact ih s hv
    · have hstep : cancelList key (k :: ks) s = cancelList key ks (cancelSession k s) := by
        simp [cancelList, hk]
      rw [hstep]
      exact ih (cancelSession k s) (cancelSession_paused_mono k s hv)

theorem cancelList_sessions (key : String) (ks : List String) (s : CtrlState) :
    (cancelList key ks s).sessions =
      s.sessions.filter (fun p => decide (p.1 = key) || !(decide (p.1 ∈ ks))) := by
  induction ks generalizing s with
  | nil => simp [cancelList]
  | cons k ks ih =>
    by_cases hk : k = key
    · subst hk
      have hstep : cancelList k (k :: ks) s = cancelList k ks s := by
        simp [cancelList]
      rw [hstep, ih]
      apply List.filter_congr
      intro p hp
      by_cases hp1 : p.1 = k
      · simp [hp1]
      · simp [hp1, List.mem_cons]
    · have hstep : cancelList key (k :: ks) s = cancelList key ks (cancelSession k s) := by
        simp [cancelList, hk]
      rw [hstep, ih, cancelSession_sessions, mapErase, List.filter_filter]
      apply List.filter_congr
      intro p hp
      by_cases hp1 : p.1 = key
      · have hne : p.1 ≠ k := fun hh => hk (hh.symm.trans hp1)
        simp [hp1, hne]
        exact fun hh => hk hh.symm
      · by_cases hp2 : p.1 = k
        · simp [hp1, hp2, List.mem_cons]
          exact hk
        · simp [hp1, hp2, List.mem_cons]

theorem cancelList_pauses (key : String) (ks : List String) (s : CtrlState)
    (hnd : (s.sessions.map Prod.fst).Nodup) :
    ∀ p ∈ s.sessions, p.1 ∈ ks → p.1 ≠ key →
      p.2.video ∈ (cancelList key ks s).pausedVideos := by
  induction ks generalizing s with
  | nil =>
    intro p _ hks _
    simp at hks
  | cons k ks ih =>
    intro p hp hks hpkey
    by_cases hk : k = key
    · subst hk
      have hstep : cancelList k (k :: ks) s = cancelList k ks s := by
        simp [cancelList]
      rw [hstep]
      have hin : p.1 ∈ ks := by
        rcases List.mem_cons.mp hks with h | h
        · exact absurd h hpkey
        · exact h
      exact ih s hnd p hp hin hpkey
    · have hstep : cancelList key (k :: ks) s = cancelList key ks (cancelSession k s) := by
        simp [cancelList, hk]
      rw [hstep]
      by_cases hpk : p.1 = k
      · have hfind : mapFind s.sessions k = some p.2 := by
          rw [← hpk]
          exact mapFind_eq_some_of_mem_nodup hnd (by simpa using hp)
        have hmem : p.2.video ∈ (cancelSession k s).pausedVideos := by
          simp [cancelSession, hfind, pauseVideo]
        exact cancelList_paused_mono key ks _ hmem
      · have hp' : p ∈ (cancelSession k s).sessions := by
          rw [cancelSession_sessions, mapErase]
          exact List.mem_filter.mpr ⟨hp, by simpa using hpk⟩
        have hnd' : ((cancelSession k s).sessions.map Prod.fst).Nodup := by
          rw [cancelSession_sessions]
          exact List.Nodup.sublist (mapErase_keys_sublist s.sessions k) hnd
        have hin : p.1 ∈ ks := by
          rcases List.mem_cons.mp hks with h | h
          · exact absurd h hpk
          · exact h
        exact ih (cancelSession k s) hnd' p hp' hin hpkey

theorem cancelAllExcept_only_key (key : String) (s : CtrlState) :
    ∀ p ∈ (cancelAllExcept key s).sessions, p.1 = key := by
  intro p hp
  rw [cancelAllExcept, cancelList_sessions] at hp
  obtain ⟨hmem, hpred⟩ := List.mem_filter.mp hp
  have hin : p.1 ∈ s.sessions.map Prod.fst := List.mem_map_of_mem Prod.fst hmem
  simp [hin] at hpred
  exact hpred

theorem cancelSession_sessions_all_key (key : String) (st : CtrlState)
    (h : ∀ p ∈ st.sessions, p.1 = key) : (cancelSession key st).sessions = [] := by
  rw [cancelSession_sessions, mapErase, List.filter_eq_nil_iff]
  intro p hp
  simp [h p hp]

theorem playStart_run (req : PlaybackRequest) (s : CtrlState) :
    (playStart req s).1 = s.globalToken + 1 ∧
    (playStart req s).2.globalToken = s.globalToken + 1 ∧
    (playStart req s).2.sessions =
      [(buildKey req.scope req.id,
        { token := s.globalToken + 1, video := req.video })] := by
  have hg : (cancelAllExcept (buildKey req.scope req.id) s).globalToken = s.globalToken :=
    cancelList_globalToken _ _ _
  refine ⟨by simp [playStart, nextToken, hg], ?_, ?_⟩
  · simp [playStart, nextToken, cancelSession_globalToken, hg]
  · simp only [playStart, nextToken]
    have h0 : ∀ st : CtrlState,
        st.sessions = (cancelAllExcept (buildKey req.scope req.id) s).sessions →
        (cancelSession (buildKey req.scope req.id) st).sessions = [] := by
      intro st hst
      refine cancelSession_sessions_all_key _ st ?_
      rw [hst]
      exact cancelAllExcept_only_key _ s
    rw [h0 { cancelAllExcept (buildKey req.scope req.id) s with
      globalToken := (cancelAllExcept (buildKey req.scope req.id) s).globalToken + 1 } rfl]
    simp [mapSet, hg]

theorem playStart_paused_mono (req : PlaybackRequest) (s : CtrlState) {v : Nat}
    (hv : v ∈ (cancelAllExcept (buildKey req.scope req.id) s).pausedVideos) :
    v ∈ (playStart req s).2.pausedVideos := by
  simp only [playStart, nextToken]
  exact cancelSession_paused_mono _ _ hv

theorem playFinish_none (key : String) (tok : Nat) (res : DeterministicPlayResult)
    (s : CtrlState) (h : mapFind s.sessions key = none) :
    playFinish key tok res s = (PlaybackResult.cancelled, s) := by
  simp [playFinish, h]

theorem playFinish_mismatch (key : String) (tok : Nat) (res : DeterministicPlayResult)
    (s : CtrlState) (t : PlaybackSession) (h : mapFind s.sessions key = some t)
    (hne : t.token ≠ tok) :
    playFinish key tok res s = (PlaybackResult.cancelled, s) := by
  simp [playFinish, h, hne]

theorem playFinish_match (key : String) (res : DeterministicPlayResult)
    (s : CtrlState) (t : PlaybackSession) (h : mapFind s.sessions key = some t) :
    playFinish key t.token res s =
      (if res = DeterministicPlayResult.playing then (PlaybackResult.playing, s)
       else (liftEngineResult res, cancelSession key s)) := by
  by_cases hres : res = DeterministicPlayResult.playing <;> simp [playFinish, h, hres]

theorem playFinish_globalToken (key : String) (tok : Nat) (res : DeterministicPlayResult)
    (s : CtrlState) : ((playFinish key tok res s).2).globalToken = s.globalToken := by
  cases h : mapFind s.sessions key with
  | none => simp [playFinish, h]
  | some t =>
    by_cases hne : t.token ≠ tok
    · simp [playFinish, h, hne]
    · by_cases hres : res = DeterministicPlayResult.playing <;>
        simp [playFinish, h, hne, hres, cancelSession_globalToken]

theorem resetList_globalToken (ks : List String) (s : CtrlState) :
    (resetList ks s).globalToken = s.globalToken := by
  induction ks generalizing s with
  | nil => rfl
  | cons k ks ih =>
    have hstep : resetList (k :: ks) s = resetList ks (cancelSession k s) := rfl
    rw [hstep, ih, cancelSession_globalToken]

theorem ctrlStep_globalToken_le (s : CtrlState) (op : CtrlOp) :
    s.globalToken ≤ (ctrlStep s op).globalToken := by
  cases op with
  | start req =>
    have h := (playStart_run req s).2.1
    simp only [ctrlStep]
    omega
  | finish key tok res =>
    simp only [ctrlStep, playFinish_globalToken]
    exact Nat.le_refl _
  | reset scope id =>
    simp only [ctrlStep, ctrlReset, cancelSession_globalToken]
    exact Nat.le_refl _
  | resetAllOp =>
    simp only [ctrlStep, resetAll, resetList_globalToken]
    exact Nat.le_refl _
  | cancelAllExceptOp key =>
    simp only [ctrlStep, cancelAllExcept, cancelList_globalToken]
    exact Nat.le_refl _

theorem mintedTokens_gt (ops : List CtrlOp) :
    ∀ s : CtrlState, ∀ t ∈ mintedTokens s ops, s.globalToken < t := by
  induction ops with
  | nil =>
    intro s t ht
    simp [mintedTokens] at ht
  | cons op rest ih =>
    intro s t ht
    cases op with
    | start req =>
      simp only [mintedTokens] at ht
      rcases List.mem_cons.mp ht with h | h
      · have := (playStart_run req s).1
        omega
      · have h1 := ih (ctrlStep s (CtrlOp.start req)) t h
        have h2 : (ctrlStep s (CtrlOp.start req)).globalToken = s.globalToken + 1 :=
          (playStart_run req s).2.1
        omega
    | finish key tok res =>
      simp only [mintedTokens] at ht
      have h1 := ih (ctrlStep s (CtrlOp.finish key tok res)) t ht
      have h2 := ctrlStep_globalToken_le s (CtrlOp.finish key tok res)
      omega
    | reset scope id =>
      simp only [mintedTokens] at ht
      have h1 := ih (ctrlStep s (CtrlOp.reset scope id)) t ht
      have h2 := ctrlStep_globalToken_le s (CtrlOp.reset scope id)
      omega
    | resetAllOp =>
      simp only [mintedTokens] at ht
      have h1 := ih (ctrlStep s CtrlOp.resetAllOp) t ht
      have h2 := ctrlStep_globalToken_le s CtrlOp.resetAllOp
      omega
    | cancelAllExceptOp key =>
      simp only [mintedTokens] at ht
      have h1 := ih (ctrlStep s (CtrlOp.cancelAllExceptOp key)) t ht
      have h2 := ctrlStep_globalToken_le s (CtrlOp.cancelAllExceptOp key)
      omega

theorem mintedTokens_pairwise (ops : List CtrlOp) :
    ∀ s : CtrlState, (mintedTokens s ops).Pairwise (fun a b => a < b) := by
  induction ops with
  | nil =>
    intro s
    simp [mintedTokens]
  | cons op rest ih =>
    intro s
    cases op with
    | start req =>
      simp only [mintedTokens]
      refine List.Pairwise.cons ?_ (ih _)
      intro t ht
      have h1 := mintedTokens_gt rest (ctrlStep s (CtrlOp.start req)) t ht
      have h2 : (ctrlStep s (CtrlOp.start req)).globalToken = s.globalToken + 1 :=
        (playStart_run req s).2.1
      have h3 := (playStart_run req s).1
      omega
    | finish key tok res => simpa only [mintedTokens] using ih _
    | reset scope id => simpa only [mintedTokens] using ih _
    | resetAllOp => simpa only [mintedTokens] using ih _
    | cancelAllExceptOp key => simpa only [mintedTokens] using ih _

theorem twoPlayInterleaving_spec (s0 : CtrlState) (reqA reqB : PlaybackRequest)
    (resA resB : DeterministicPlayResult) (aFirst : Bool)
    (hkey : buildKey reqB.scope reqB.id = buildKey reqA.scope reqA.id) :
    (twoPlayInterleaving s0 reqA reqB resA resB aFirst).1 = PlaybackResult.cancelled ∧
    (twoPlayInterleaving s0 reqA reqB resA resB aFirst).2.1 = liftEngineResult resB ∧
    mapFind (twoPlayInterleaving s0 reqA reqB resA resB aFirst).2.2.sessions
        (buildKey reqA.scope reqA.id) =
      (if resB = DeterministicPlayResult.playing then
        some { token := s0.globalToken + 1 + 1, video := reqB.video } else none) := by
  obtain ⟨htA, hgA, _⟩ := playStart_run reqA s0
  obtain ⟨htB, _, hsB⟩ := playStart_run reqB (playStart reqA s0).2
  rw [hgA] at htB
  rw [hkey, hgA] at hsB
  have hfind2 : mapFind (playStart reqB (playStart reqA s0).2).2.sessions
      (buildKey reqA.scope reqA.id) =
      some { token := s0.globalToken + 1 + 1, video := reqB.video } := by
    rw [hsB]
    simp [mapFind]
  have hAmis : playFinish (buildKey reqA.scope reqA.id) (playStart reqA s0).1 resA
      (playStart reqB (playStart reqA s0).2).2 =
      (PlaybackResult.cancelled, (playStart reqB (playStart reqA s0).2).2) := by
    rw [htA]
    exact playFinish_mismatch _ _ _ _ _ hfind2 (by simp)
  have hBmatch : playFinish (buildKey reqA.scope reqA.id)
      (playStart reqB (playStart reqA s0).2).1 resB
      (playStart reqB (playStart reqA s0).2).2 =
      (if resB = DeterministicPlayResult.playing then
        (PlaybackResult.playing, (playStart reqB (playStart reqA s0).2).2)
       else (liftEngineResult resB,
         cancelSession (buildKey reqA.scope reqA.id)
           (playStart reqB (playStart reqA s0).2).2)) := by
    rw [htB]
    exact playFinish_match _ _ _ _ hfind2
  by_cases hres : resB = DeterministicPlayResult.playing
  · rw [if_pos hres] at hBmatch
    rw [hres] at hBmatch
    cases aFirst with
    | true =>
      simp [twoPlayInterleaving, hAmis, hBmatch, hres, hfind2, liftEngineResult]
    | false =>
      simp [twoPlayInterleaving, hAmis, hBmatch, hres, hfind2, liftEngineResult]
  · rw [if_neg hres] at hBmatch
    have hclean : (cancelSession (buildKey reqA.scope reqA.id)
        (playStart reqB (playStart reqA s0).2).2).sessions = [] := by
      apply cancelSession_sessions_all_key
      rw [hsB]
      intro p hp
      rw [List.mem_singleton] at hp
      rw [hp]
    have hfin3 : mapFind (cancelSession (buildKey reqA.scope reqA.id)
        (playStart reqB (playStart reqA s0).2).2).sessions
        (buildKey reqA.scope reqA.id) = none := by
      rw [hclean]
      rfl
    cases aFirst with
    | true =>
      simp [twoPlayInterleaving, hAmis, hBmatch, hres, hfin3]
    | false =>
      have hA2 := playFinish_none (buildKey reqA.scope reqA.id) (playStart reqA s0).1 resA
        (cancelSession (buildKey reqA.scope reqA.id)
          (playStart reqB (playStart reqA s0).2).2) hfin3
      simp [twoPlayInterleaving, hBmatch, hA2, hres, hfin3]

/-! ## Controller claim theorems -/

/-- C1 counterexample: with a live carousel session (video 5) in the map, a
viewer-scope `play` call's synchronous phase drops the carousel session and
pauses its media — sessions in different scopes do cancel each other. -/
theorem play_cancels_cross_scope_session :
    viewerReq.scope = PlaybackScope.viewer ∧
    mapFind crossScopeState.sessions "carousel:c" = some { token := 1, video := 5 } ∧
    mapFind ((playStart viewerReq crossScopeState).2).sessions "carousel:c" = none ∧
    5 ∈ ((playStart viewerReq crossScopeState).2).pausedVideos := by
  refine ⟨rfl, rfl, by decide, by decide⟩

/-- C1 (amended): the synchronous cancellation phase of `play` cancels
every other live session regardless of scope — afterwards no session for
any other key remains, and each such session's media has been paused; only
the request's own key survives (holding the new pending session). -/
theorem play_sync_cancels_all_others (s : CtrlState) (req : PlaybackRequest)
    (hnd : (s.sessions.map Prod.fst).Nodup) :
    (∀ k, k ≠ buildKey req.scope req.id →
      mapFind ((playStart req s).2).sessions k = none) ∧
    (∀ p ∈ s.sessions, p.1 ≠ buildKey req.scope req.id →
      p.2.video ∈ ((playStart req s).2).pausedVideos) := by
  obtain ⟨_, _, h3⟩ := playStart_run req s
  constructor
  · intro k hk
    rw [h3]
    have hne : buildKey req.scope req.id ≠ k := fun hh => hk hh.symm
    simp [mapFind, hne]
  · intro p hp hpk
    apply playStart_paused_mono
    exact cancelList_pauses _ _ _ hnd p hp (List.mem_map_of_mem Prod.fst hp) hpk

/-- Witness for the amended C1 at the concrete cross-scope state. -/
theorem play_sync_cancels_all_others_witness :
    (crossScopeState.sessions.map Prod.fst).Nodup ∧
    ((∀ k, k ≠ buildKey viewerReq.scope viewerReq.id →
       mapFind ((playStart viewerReq crossScopeState).2).sessions k = none) ∧
     (∀ p ∈ crossScopeState.sessions, p.1 ≠ buildKey viewerReq.scope viewerReq.id →
       p.2.video ∈ ((playStart viewerReq crossScopeState).2).pausedVideos)) :=
  ⟨by decide, play_sync_cancels_all_others crossScopeState viewerReq (by decide)⟩

/-- C2: every `play` call mints a strictly larger token than all tokens
minted before it (the minted-token trace is strictly increasing and
exceeds the controller's current counter), and in the race `play(A)` then
`play(B)` on the same key with `B` initiated before `A` resolves, whatever
order the engine calls complete in, `A` returns `cancelled`, `B`'s call
returns the engine's result for `B`, and the stored session for the key is
`B`'s (present with `B`'s token iff `B` played, absent otherwise). -/
theorem token_monotonic_last_call_wins (s0 : CtrlState) (ops : List CtrlOp)
    (scope : PlaybackScope) (id : String) (vA vB : Nat)
    (oA oB : DeterministicPlayOptions) (resA resB : DeterministicPlayResult)
    (aFirst : Bool) :
    ((mintedTokens s0 ops).Pairwise (fun a b => a < b) ∧
     (∀ t ∈ mintedTokens s0 ops, s0.globalToken < t)) ∧
    ((playStart { scope := scope, id := id, video := vA, options := oA } s0).1 =
        s0.globalToken + 1 ∧
     (playStart { scope := scope, id := id, video := vB, options := oB }
        (playStart { scope := scope, id := id, video := vA, options := oA } s0).2).1 =
        s0.globalToken + 1 + 1 ∧
     (twoPlayInterleaving s0 { scope := scope, id := id, video := vA, options := oA }
        { scope := scope, id := id, video := vB, options := oB } resA resB aFirst).1 =
        PlaybackResult.cancelled ∧
     (twoPlayInterleaving s0 { scope := scope, id := id, video := vA, options := oA }
        { scope := scope, id := id, video := vB, options := oB } resA resB aFirst).2.1 =
        liftEngineResult resB ∧
     mapFind (twoPlayInterleaving s0
        { scope := scope, id := id, video := vA, options := oA }
        { scope := scope, id := id, video := vB, options := oB }
        resA resB aFirst).2.2.sessions (buildKey scope id) =
       (if resB = DeterministicPlayResult.playing then
          some { token := s0.globalToken + 1 + 1, video := vB } else none)) := by
  have hspec := twoPlayInterleaving_spec s0
    { scope := scope, id := id, video := vA, options := oA }
    { scope := scope, id := id, video := vB, options := oB } resA resB aFirst rfl
  have htA := (playStart_run { scope := scope, id := id, video := vA, options := oA } s0).1
  have htB := (playStart_run { scope := scope, id := id, video := vB, options := oB }
    (playStart { scope := scope, id := id, video := vA, options := oA } s0).2).1
  have hgA := (playStart_run { scope := scope, id := id, video := vA, options := oA } s0).2.1
  rw [hgA] at htB
  exact ⟨⟨mintedTokens_pairwise ops s0, mintedTokens_gt ops s0⟩,
    htA, htB, hspec.1, hspec.2.1, hspec.2.2⟩

/-- C4: `reset(scope, id)` issued after `play`'s synchronous phase but
before its engine call resolves leaves the key Idle; when the engine later
resolves — with any result, `playing` included — that `play` call returns
`cancelled` and mutates nothing: the state is exactly the post-reset state,
and no session for the key is re-created. -/
theorem reset_before_resolve_stays_idle (s0 : CtrlState) (req : PlaybackRequest)
    (res : DeterministicPlayResult) :
    (playFinish (buildKey req.scope req.id) (playStart req s0).1 res
      (ctrlReset req.scope req.id (playStart req s0).2)).1 = PlaybackResult.cancelled ∧
    (playFinish (buildKey req.scope req.id) (playStart req s0).1 res
      (ctrlReset req.scope req.id (playStart req s0).2)).2 =
      ctrlReset req.scope req.id (playStart req s0).2 ∧
    mapFind (ctrlReset req.scope req.id (playStart req s0).2).sessions
      (buildKey req.scope req.id) = none := by
  obtain ⟨_, _, h3⟩ := playStart_run req s0
  have hres0 : (ctrlReset req.scope req.id (playStart req s0).2).sessions = [] := by
    unfold ctrlReset
    apply cancelSession_sessions_all_key
    rw [h3]
    intro p hp
    rw [List.mem_singleton] at hp
    rw [hp]
  have hfind : mapFind (ctrlReset req.scope req.id (playStart req s0).2).sessions
      (buildKey req.scope req.id) = none := by
    rw [hres0]
    rfl
  refine ⟨?_, ?_, hfind⟩
  · rw [playFinish_none _ _ _ _ hfind]
  · rw [playFinish_none _ _ _ _ hfind]

/-- C10: when a `play` call resumes with its own token still stored for
the key and the engine result is `blocked` or `failed`, the controller
pauses the request's media element and removes the key's session before
returning the engine's result. -/
theorem playFinish_nonplaying_cleans (s : CtrlState) (req : PlaybackRequest) (tok : Nat)
    (res : DeterministicPlayResult)
    (hfind : mapFind s.sessions (buildKey req.scope req.id) =
      some { token := tok, video := req.video })
    (hres : res = DeterministicPlayResult.blocked ∨ res = DeterministicPlayResult.failed) :
    (playFinish (buildKey req.scope req.id) tok res s).1 = liftEngineResult res ∧
    req.video ∈ ((playFinish (buildKey req.scope req.id) tok res s).2).pausedVideos ∧
    mapFind ((playFinish (buildKey req.scope req.id) tok res s).2).sessions
      (buildKey req.scope req.id) = none := by
  have hnp : res ≠ DeterministicPlayResult.playing := by
    rcases hres with h | h <;> simp [h]
  have hp := playFinish_match (buildKey req.scope req.id) res s
    { token := tok, video := req.video } hfind
  rw [if_neg hnp] at hp
  refine ⟨?_, ?_, ?_⟩
  · rw [hp]
  · rw [hp]
    simp [cancelSession, hfind, pauseVideo]
  · rw [hp]
    simp only [cancelSession_sessions]
    exact mapFind_mapErase_self _ _

/-- Witness for C10 at a concrete matching session and `blocked` result. -/
theorem playFinish_nonplaying_cleans_witness :
    (mapFind matchedState.sessions (buildKey viewerReq.scope viewerReq.id) =
       some { token := 3, video := viewerReq.video } ∧
     (DeterministicPlayResult.blocked = DeterministicPlayResult.blocked ∨
      DeterministicPlayResult.blocked = DeterministicPlayResult.failed)) ∧
    ((playFinish (buildKey viewerReq.scope viewerReq.id) 3
        DeterministicPlayResult.blocked matchedState).1 =
      liftEngineResult DeterministicPlayResult.blocked ∧
     viewerReq.video ∈ ((playFinish (buildKey viewerReq.scope viewerReq.id) 3
        DeterministicPlayResult.blocked matchedState).2).pausedVideos ∧
     mapFind ((playFinish (buildKey viewerReq.scope viewerReq.id) 3
        DeterministicPlayResult.blocked matchedState).2).sessions
       (buildKey viewerReq.scope viewerReq.id) = none) :=
  ⟨⟨by decide, Or.inl rfl⟩,
    playFinish_nonplaying_cleans matchedState viewerReq 3
      DeterministicPlayResult.blocked (by decide) (Or.inl rfl)⟩

/-! ## Engine lemmas -/

theorem verifyProgress_false {b : MediaBehavior}
    (hf : b.hasFrameCallback = false ∨ b.frameAdvance = false)
    (h1 : b.fastAdvance = false) (h2 : b.slowAdvance = false) :
    verifyProgress b = false := by
  rcases hf with h | h <;>
    cases hb : b.hasFrameCallback <;>
      simp [verifyProgress, verifyProgressByFrames, h, hb, h1, h2]

/-- C6: a `play()` that resolves but never makes progress (no frame
callback confirms an advance and neither timed sample sees `currentTime`
move) yields `failed`, never `playing`, and the element is paused before
returning. -/
theorem playDeterministic_silentStall_failed (b : MediaBehavior)
    (opts : DeterministicPlayOptions) (s : EngineState)
    (h1 : b.playOutcome s.playCalls = PlayOutcome.resolves)
    (hf : b.hasFrameCallback = false ∨ b.frameAdvance = false)
    (h3 : b.fastAdvance = false) (h4 : b.slowAdvance = false) :
    (playDeterministic b opts s).1 = DeterministicPlayResult.failed ∧
    (playDeterministic b opts s).1 ≠ DeterministicPlayResult.playing ∧
    ((playDeterministic b opts s).2).el.paused = true := by
  have hv : verifyProgress b = false := verifyProgress_false hf h3 h4
  simp [playDeterministic, attemptPlay, h1, hv]

/-- Witness for C6 at the concrete silent-stall stub. -/
theorem playDeterministic_silentStall_failed_witness :
    (stubSilentStall.playOutcome engineInit.playCalls = PlayOutcome.resolves ∧
     (stubSilentStall.hasFrameCallback = false ∨ stubSilentStall.frameAdvance = false) ∧
     stubSilentStall.fastAdvance = false ∧ stubSilentStall.slowAdvance = false) ∧
    ((playDeterministic stubSilentStall optsAuto engineInit).1 =
        DeterministicPlayResult.failed ∧
     (playDeterministic stubSilentStall optsAuto engineInit).1 ≠
        DeterministicPlayResult.playing ∧
     ((playDeterministic stubSilentStall optsAuto engineInit).2).el.paused = true) :=
  ⟨⟨by decide, Or.inr (by decide), by decide, by decide⟩,
    playDeterministic_silentStall_failed stubSilentStall optsAuto engineInit
      (by decide) (Or.inr (by decide)) (by decide) (by decide)⟩

/-- C5: when the first `play()` is rejected with `NotAllowedError`, the
second (post-mute) `play()` resolves and progress verifies, the engine run
with `allowAutoMute = true` returns `playing` and leaves `muted = true`. -/
theorem playDeterministic_mutedFallback_playing (b : MediaBehavior)
    (opts : DeterministicPlayOptions) (s : EngineState)
    (h1 : b.playOutcome s.playCalls = PlayOutcome.rejects "NotAllowedError")
    (h2 : b.playOutcome (s.playCalls + 1) = PlayOutcome.resolves)
    (h3 : verifyProgress b = true)
    (h4 : opts.allowAutoMute = true) :
    (playDeterministic b opts s).1 = DeterministicPlayResult.playing ∧
    ((playDeterministic b opts s).2).el.muted = true := by
  simp [playDeterministic, attemptPlay, h1, h2, h3, h4, classifyPlayError]

/-- Witness for C5 at the concrete muted-fallback stub. -/
theorem playDeterministic_mutedFallback_playing_witness :
    (stubMutedOk.playOutcome engineInit.playCalls =
        PlayOutcome.rejects "NotAllowedError" ∧
     stubMutedOk.playOutcome (engineInit.playCalls + 1) = PlayOutcome.resolves ∧
     verifyProgress stubMutedOk = true ∧
     optsAuto.allowAutoMute = true) ∧
    ((playDeterministic stubMutedOk optsAuto engineInit).1 =
        DeterministicPlayResult.playing ∧
     ((playDeterministic stubMutedOk optsAuto engineInit).2).el.muted = true) :=
  ⟨⟨by decide, by decide, by decide, by decide⟩,
    playDeterministic_mutedFallback_playing stubMutedOk optsAuto engineInit
      (by decide) (by decide) (by decide) (by decide)⟩

/-- C3 counterexample: first attempt policy-denied, `allowAutoMute` on,
retry accepted but progress never verifies — the engine returns `failed`,
not `blocked` as the claim states. -/
theorem playDeterministic_retryStall_not_blocked :
    stubRetryStalls.playOutcome 0 = PlayOutcome.rejects "NotAllowedError" ∧
    stubRetryStalls.playOutcome 1 = PlayOutcome.resolves ∧
    verifyProgress stubRetryStalls = false ∧
    optsAuto.allowAutoMute = true ∧
    (playDeterministic stubRetryStalls optsAuto engineInit).1 =
      DeterministicPlayResult.failed ∧
    (playDeterministic stubRetryStalls optsAuto engineInit).1 ≠
      DeterministicPlayResult.blocked := by
  refine ⟨by decide, by decide, by decide, by decide, by decide, by decide⟩

/-- C3 (amended): on policy denial with `allowAutoMute = true` the engine
forces `muted = true` and retries exactly once; a rejected retry yields
`blocked`, while a retry that is accepted but fails progress verification
pauses the element and yields `failed` (not `blocked`). -/
theorem playDeterministic_mutedRetry_amended (b : MediaBehavior)
    (opts : DeterministicPlayOptions) (s : EngineState)
    (h1 : b.playOutcome s.playCalls = PlayOutcome.rejects "NotAllowedError")
    (h2 : opts.allowAutoMute = true) :
    ((playDeterministic b opts s).2).playCalls = s.playCalls + 2 ∧
    ((playDeterministic b opts s).2).el.muted = true ∧
    (∀ reason, b.playOutcome (s.playCalls + 1) = PlayOutcome.rejects reason →
      (playDeterministic b opts s).1 = DeterministicPlayResult.blocked) ∧
    (b.playOutcome (s.playCalls + 1) = PlayOutcome.resolves →
      verifyProgress b = false →
      (playDeterministic b opts s).1 = DeterministicPlayResult.failed ∧
      ((playDeterministic b opts s).2).el.paused = true) := by
  cases hb : b.playOutcome (s.playCalls + 1) with
  | resolves =>
    cases hv : verifyProgress b <;>
      simp [playDeterministic, attemptPlay, h1, h2, hb, hv, classifyPlayError]
  | rejects reason =>
    by_cases hr : reason = "NotAllowedError" <;>
      simp [playDeterministic, attemptPlay, h1, h2, hb, hr, classifyPlayError]

/-- Witness for the amended C3 at the concrete retry-stall stub. -/
theorem playDeterministic_mutedRetry_amended_witness :
    (stubRetryStalls.playOutcome engineInit.playCalls =
        PlayOutcome.rejects "NotAllowedError" ∧
     optsAuto.allowAutoMute = true) ∧
    (((playDeterministic stubRetryStalls optsAuto engineInit).2).playCalls =
        engineInit.playCalls + 2 ∧
     ((playDeterministic stubRetryStalls optsAuto engineInit).2).el.muted = true ∧
     (∀ reason,
        stubRetryStalls.playOutcome (engineInit.playCalls + 1) =
          PlayOutcome.rejects reason →
        (playDeterministic stubRetryStalls optsAuto engineInit).1 =
          DeterministicPlayResult.blocked) ∧
     (stubRetryStalls.playOutcome (engineInit.playCalls + 1) = PlayOutcome.resolves →
      verifyProgress stubRetryStalls = false →
      (playDeterministic stubRetryStalls optsAuto engineInit).1 =
        DeterministicPlayResult.failed ∧
      ((playDeterministic stubRetryStalls optsAuto engineInit).2).el.paused = true)) :=
  ⟨⟨by decide, by decide⟩,
    playDeterministic_mutedRetry_amended stubRetryStalls optsAuto engineInit
      (by decide) (by decide)⟩

/-! ## Resolver lemmas -/

theorem jsOr_eq (a x : Option String) :
    jsOr a x = if optNonempty a then a else x := by
  cases a with
  | none => simp [jsOr, optNonempty]
  | some s => by_cases h : s = "" <;> simp [jsOr, optNonempty, h]

/-- C9 counterexample: the resolver does not return every plain string
unchanged — the empty string is falsy in JavaScript, so
`resolveFinalUrl('')` is `undefined`, not `''`. -/
theorem resolveFinalUrl_emptyString :
    resolveFinalUrl 1000000 false (some (VideoSrc.str "")) = none ∧
    resolveFinalUrl 1000000 false (some (VideoSrc.str "")) ≠ some "" := by
  refine ⟨by decide, by decide⟩

/-- C9 (amended): every non-empty plain string is returned unchanged (the
empty string yields `undefined`); the tier policy prefers low under low
bandwidth or a small viewport, mid under medium bandwidth, otherwise high,
falling back through the non-empty tiers with the last tier returned as-is;
`resolve({})` is `undefined`, `resolve({low:'a'})` is `'a'` under any
signals, and `undefined` is returned only when no non-empty variant is
provided. -/
theorem resolveFinalUrl_amended :
    (∀ bw m s, s ≠ "" → resolveFinalUrl bw m (some (VideoSrc.str s)) = some s) ∧
    (∀ bw m, resolveFinalUrl bw m (some (VideoSrc.variants noVariants)) = none) ∧
    (∀ bw m, resolveFinalUrl bw m (some (VideoSrc.variants lowOnlyVariants)) = some "a") ∧
    (∀ bw m v, (bw < 500000 ∨ m = true) →
      resolveFinalUrl bw m (some (VideoSrc.variants v)) =
        (if optNonempty v.low then v.low
         else if optNonempty v.mid then v.mid else v.high)) ∧
    (∀ bw m v, ¬(bw < 500000 ∨ m = true) → bw < 2000000 →
      resolveFinalUrl bw m (some (VideoSrc.variants v)) =
        (if optNonempty v.mid then v.mid
         else if optNonempty v.high then v.high else v.low)) ∧
    (∀ bw m v, ¬(bw < 500000 ∨ m = true) → ¬(bw < 2000000) →
      resolveFinalUrl bw m (some (VideoSrc.variants v)) =
        (if optNonempty v.high then v.high
         else if optNonempty v.mid then v.mid else v.low)) ∧
    (∀ bw m v, resolveFinalUrl bw m (some (VideoSrc.variants v)) = none →
      optNonempty v.low = false ∧ optNonempty v.mid = false ∧
      optNonempty v.high = false) := by
  refine ⟨?_, ?_, ?_, ?_, ?_, ?_, ?_⟩
  · intro bw m s h
    simp [resolveFinalUrl, h]
  · intro bw m
    simp [resolveFinalUrl, selectOptimalSource, noVariants, jsOr]
  · intro bw m
    by_cases h1 : bw < 500000 ∨ m = true <;>
      by_cases h2 : bw < 2000000 <;>
        simp [resolveFinalUrl, selectOptimalSource, lowOnlyVariants, jsOr, h1, h2]
  · intro bw m v h
    simp [resolveFinalUrl, selectOptimalSource, h, jsOr_eq]
  · intro bw m v h1 h2
    simp [resolveFinalUrl, selectOptimalSource, h1, h2, jsOr_eq]
  · intro bw m v h1 h2
    simp [resolveFinalUrl, selectOptimalSource, h1, h2, jsOr_eq]
  · intro bw m v h
    by_cases h1 : bw < 500000 ∨ m = true
    · simp only [resolveFinalUrl, selectOptimalSource, if_pos h1, jsOr_eq] at h
      by_cases hl : optNonempty v.low <;> by_cases hm : optNonempty v.mid <;>
        by_cases hh : optNonempty v.high <;>
          simp_all [optNonempty]
    · by_cases h2 : bw < 2000000
      · simp only [resolveFinalUrl, selectOptimalSource, if_neg h1, if_pos h2,
          jsOr_eq] at h
        by_cases hl : optNonempty v.low <;> by_cases hm : optNonempty v.mid <;>
          by_cases hh : optNonempty v.high <;>
            simp_all [optNonempty]
      · simp only [resolveFinalUrl, selectOptimalSource, if_neg h1, if_neg h2,
          jsOr_eq] at h
        by_cases hl : optNonempty v.low <;> by_cases hm : optNonempty v.mid <;>
          by_cases hh : optNonempty v.high <;>
            simp_all [optNonempty]

/-- Witness for the amended C9 at concrete inputs. -/
theorem resolveFinalUrl_amended_witness :
    ("video.mp4" ≠ "" ∧
     resolveFinalUrl 0 false (some (VideoSrc.str "video.mp4")) = some "video.mp4") ∧
    resolveFinalUrl 3000000 false (some (VideoSrc.variants noVariants)) = none ∧
    resolveFinalUrl 3000000 false (some (VideoSrc.variants lowOnlyVariants)) = some "a" :=
  ⟨⟨by decide, resolveFinalUrl_amended.1 0 false "video.mp4" (by decide)⟩,
    resolveFinalUrl_amended.2.1 3000000 false,
    resolveFinalUrl_amended.2.2.1 3000000 false⟩

/-! ## Cache lemmas -/

theorem mem_mapSet {κ α : Type} [DecidableEq κ] {m : List (κ × α)} {k : κ} {v : α}
    {p : κ × α} (hp : p ∈ mapSet m k v) : p = (k, v) ∨ p ∈ m := by
  induction m with
  | nil => simpa [mapSet] using hp
  | cons q rest ih =>
    obtain ⟨k', w⟩ := q
    by_cases h : k' = k
    · simp only [mapSet, if_pos h] at hp
      rcases List.mem_cons.mp hp with h1 | h1
      · exact Or.inl h1
      · exact Or.inr (List.mem_cons_of_mem _ h1)
    · simp only [mapSet, if_neg h] at hp
      rcases List.mem_cons.mp hp with h1 | h1
      · exact Or.inr (h1 ▸ List.mem_cons_self _ _)
      · rcases ih h1 with h2 | h2
        · exact Or.inl h2
        · exact Or.inr (List.mem_cons_of_mem _ h2)

theorem mapSet_keys_nodup {κ α : Type} [DecidableEq κ] {m : List (κ × α)} (k : κ) (v : α)
    (h : (m.map Prod.fst).Nodup) : ((mapSet m k v).map Prod.fst).Nodup := by
  induction m with
  | nil => simp [mapSet]
  | cons q rest ih =>
    obtain ⟨k', w⟩ := q
    rw [List.map_cons, List.nodup_cons] at h
    by_cases hk : k' = k
    · subst hk
      have hset : mapSet ((k', w) :: rest) k' v = (k', v) :: rest := by
        simp [mapSet]
      rw [hset, List.map_cons, List.nodup_cons]
      exact h
    · simp only [mapSet, if_neg hk, List.map_cons, List.nodup_cons]
      constructor
      · intro hmem
        rw [List.mem_map] at hmem
        obtain ⟨p, hp, hpe⟩ := hmem
        rcases mem_mapSet hp with h1 | h1
        · rw [h1] at hpe
          exact hk hpe.symm
        · exact h.1 (List.mem_map.mpr ⟨p, h1, hpe⟩)
      · exact ih h.2

theorem destroyHandle_cache (hls : Option Nat) (s : MgrState) :
    (destroyHandle hls s).cache = s.cache := by
  cases hls <;> rfl

theorem cancelPendingDispose_cache (key : String) (s : MgrState) :
    (cancelPendingDispose key s).cache = s.cache := by
  unfold cancelPendingDispose
  cases mapFind s.disposeTimeouts key <;> rfl

theorem srcTruthy_of_resolve {bandwidth : Nat} {isMobile : Bool} {src : Option VideoSrc}
    {u : String} (h : resolveFinalUrl bandwidth isMobile src = some u) :
    srcTruthy src = true := by
  cases src with
  | none => simp [resolveFinalUrl] at h
  | some v =>
    cases v with
    | str t =>
      by_cases ht : t = ""
      · simp [resolveFinalUrl, ht] at h
      · simp [srcTruthy, ht]
    | variants _ => rfl

theorem cleanupLoop_cache_keys_sublist (l : List (String × Entry)) (s : MgrState) :
    ((cleanupLoop l s).cache.map Prod.fst).Sublist (s.cache.map Prod.fst) := by
  induction l generalizing s with
  | nil => exact List.Sublist.refl _
  | cons q rest ih =>
    obtain ⟨oldKey, entry⟩ := q
    simp only [cleanupLoop]
    by_cases hc : entry.refCount = 0 ∧ mapFind s.disposeTimeouts oldKey = none
    · rw [if_pos hc]
      have hsub : ((mapErase (destroyHandle entry.hls s).cache oldKey).map Prod.fst).Sublist
          (s.cache.map Prod.fst) := by
        rw [destroyHandle_cache]
        exact mapErase_keys_sublist s.cache oldKey
      by_cases hlen :
          (mapErase (destroyHandle entry.hls s).cache oldKey).length < CACHE_LIMIT
      · rw [if_pos hlen]
        exact hsub
      · rw [if_neg hlen]
        exact List.Sublist.trans (ih _) hsub
    · rw [if_neg hc]
      exact ih s

theorem cleanupLoop_spec (l : List (String × Entry)) (s : MgrState)
    (hl : ∀ p ∈ l, mapFind s.cache p.1 = some p.2 ∨ mapFind s.cache p.1 = none)
    (hnn : EntriesNonneg s) :
    EntriesNonneg (cleanupLoop l s) ∧
    ∀ k e, mapFind s.cache k = some e → 0 < e.refCount →
      mapFind (cleanupLoop l s).cache k = some e := by
  induction l generalizing s with
  | nil => exact ⟨hnn, fun _ _ h _ => h⟩
  | cons q rest ih =>
    obtain ⟨oldKey, entry⟩ := q
    simp only [cleanupLoop]
    by_cases hc : entry.refCount = 0 ∧ mapFind s.disposeTimeouts oldKey = none
    · rw [if_pos hc]
      have hcache : (mapErase (destroyHandle entry.hls s).cache oldKey) =
          mapErase s.cache oldKey := by
        rw [destroyHandle_cache]
      have hs2nn : EntriesNonneg
          { destroyHandle entry.hls s with
            cache := mapErase (destroyHandle entry.hls s).cache oldKey } := by
        intro p hp
        simp only [hcache] at hp
        exact hnn p (List.mem_of_mem_filter hp)
      have hsurv2 : ∀ k e, mapFind s.cache k = some e → 0 < e.refCount →
          mapFind (mapErase (destroyHandle entry.hls s).cache oldKey) k = some e := by
        intro k e hk hpos
        by_cases hko : k = oldKey
        · subst hko
          rcases hl (k, entry) (List.mem_cons_self _ _) with h1 | h1
          · rw [hk] at h1
            have : entry = e := by injection h1.symm
            rw [← this] at hpos
            omega
          · rw [hk] at h1
            exact absurd h1 (by simp)
        · rw [hcache, mapFind_mapErase_ne _ _ _ (fun hh => hko hh.symm)]
          exact hk
      have hl2 : ∀ p ∈ rest,
          mapFind (mapErase (destroyHandle entry.hls s).cache oldKey) p.1 = some p.2 ∨
          mapFind (mapErase (destroyHandle entry.hls s).cache oldKey) p.1 = none := by
        intro p hp
        by_cases hpo : p.1 = oldKey
        · rw [hcache, hpo]
          exact Or.inr (mapFind_mapErase_self _ _)
        · rw [hcache, mapFind_mapErase_ne _ _ _ (fun hh => hpo hh.symm)]
          exact hl p (List.mem_cons_of_mem _ hp)
      by_cases hlen :
          (mapErase (destroyHandle entry.hls s).cache oldKey).length < CACHE_LIMIT
      · rw [if_pos hlen]
        exact ⟨hs2nn, hsurv2⟩
      · rw [if_neg hlen]
        obtain ⟨ha, hb⟩ := ih _ hl2 hs2nn
        exact ⟨ha, fun k e hk hpos => hb k e (hsurv2 k e hk hpos) hpos⟩
    · rw [if_neg hc]
      exact ih s (fun p hp => hl p (List.mem_cons_of_mem _ hp)) hnn

theorem cleanupCacheIfNeeded_spec (s : MgrState)
    (hnd : (s.cache.map Prod.fst).Nodup) (hnn : EntriesNonneg s) :
    EntriesNonneg (cleanupCacheIfNeeded s) ∧
    ((cleanupCacheIfNeeded s).cache.map Prod.fst).Sublist (s.cache.map Prod.fst) ∧
    ∀ k e, mapFind s.cache k = some e → 0 < e.refCount →
      mapFind (cleanupCacheIfNeeded s).cache k = some e := by
  unfold cleanupCacheIfNeeded
  by_cases hlen : s.cache.length ≥ CACHE_LIMIT
  · rw [if_pos hlen]
    have hl : ∀ p ∈ s.cache,
        mapFind s.cache p.1 = some p.2 ∨ mapFind s.cache p.1 = none := by
      intro p hp
      left
      exact mapFind_eq_some_of_mem_nodup hnd (by rwa [Prod.mk.eta])
    obtain ⟨ha, hb⟩ := cleanupLoop_spec s.cache s hl hnn
    exact ⟨ha, cleanupLoop_cache_keys_sublist s.cache s, hb⟩
  · rw [if_neg hlen]
    exact ⟨hnn, List.Sublist.refl _, fun _ _ h _ => h⟩

theorem mkNewEntry_spec (env : Env) (key url : String) (s : MgrState) :
    (mkNewEntry env key url s).1.url = url ∧
    (mkNewEntry env key url s).1.refCount = 0 ∧
    (mkNewEntry env key url s).2.cache =
      mapSet (cleanupCacheIfNeeded s).cache key (mkNewEntry env key url s).1 := by
  simp only [mkNewEntry]
  by_cases hh : isHlsUrl url ∧ env.hlsSupported = true
  · rw [if_pos hh]
    simp
  · rw [if_neg hh]
    simp

theorem mapSet_mapSet {κ α : Type} [DecidableEq κ] (m : List (κ × α)) (k : κ) (v w : α) :
    mapSet (mapSet m k v) k w = mapSet m k w := by
  induction m with
  | nil => simp [mapSet]
  | cons q rest ih =>
    obtain ⟨k', x⟩ := q
    by_cases h : k' = k
    · simp [mapSet, h]
    · simp [mapSet, h, ih]

theorem attach_cache_eq (env : Env) (v : Nat) (key : String) (src : Option VideoSrc)
    (s s1 : MgrState) (ent : Entry)
    (hee : ensureEntry env key src s = (some ent, s1)) :
    (attach env v key src s).cache =
      mapSet s1.cache key { ent with refCount := ent.refCount + 1 } := by
  simp only [attach, hee]
  cases hhl : ent.hls with
  | some h => simp [hhl]
  | none =>
    simp only [hhl]
    by_cases hv : mapFind
        ({ s1 with cache := mapSet s1.cache key { ent with refCount := ent.refCount + 1 }
          }).videoSrc v ≠ some ({ ent with refCount := ent.refCount + 1 } : Entry).url
    · rw [if_pos hv]
    · rw [if_neg hv]

theorem detach_cache_eq (key : String) (videoId : Option Nat)
    (scope : Option VideoSourceScope) (s : MgrState) (entry0 : Entry)
    (hex : mapFind s.cache key = some entry0) :
    (detach key videoId scope s).cache =
      mapSet s.cache key { entry0 with refCount := max 0 (entry0.refCount - 1) } := by
  simp only [detach, hex]
  rcases scope with _ | sc
  · split_ifs <;> simp [cancelPendingDispose_cache]
  · cases sc with
    | viewer =>
      rcases videoId with _ | v
      · split_ifs <;> simp [cancelPendingDispose_cache]
      · split_ifs <;> simp [detachMediaState, cancelPendingDispose_cache]
    | carousel => split_ifs <;> simp [cancelPendingDispose_cache]

theorem attach_fresh_facts (key u : String) (cacheClean : List (String × Entry))
    (newE : Entry) (hurl : newE.url = u) (hrc : newE.refCount = 0)
    (hcnn : ∀ p ∈ cacheClean, (0 : Int) ≤ p.2.refCount)
    (hcnd : (cacheClean.map Prod.fst).Nodup) :
    (∀ p ∈ mapSet cacheClean key { newE with refCount := newE.refCount + 1 },
      (0 : Int) ≤ p.2.refCount) ∧
    ((mapSet cacheClean key { newE with refCount := newE.refCount + 1 }).map
      Prod.fst).Nodup ∧
    (∀ e, mapFind (mapSet cacheClean key { newE with refCount := newE.refCount + 1 })
      key = some e → e.url = u) ∧
    (∀ k e, k ≠ key → mapFind cacheClean k = some e →
      mapFind (mapSet cacheClean key { newE with refCount := newE.refCount + 1 }) k =
        some e) := by
  refine ⟨?_, ?_, ?_, ?_⟩
  · intro p hp
    rcases mem_mapSet hp with h1 | h1
    · rw [h1]
      simp [hrc]
    · exact hcnn p h1
  · exact mapSet_keys_nodup _ _ hcnd
  · intro e hfe
    rw [mapFind_mapSet_self] at hfe
    injection hfe with hfe
    rw [← hfe]
    exact hurl
  · intro k e hk hke
    rw [mapFind_mapSet_ne _ _ _ _ (fun hh => hk hh.symm)]
    exact hke

theorem eraseEntryState_cache (key : String) (hls : Option Nat) (s1 : MgrState) :
    (eraseEntryState key hls s1).cache = mapErase s1.cache key := by
  simp [eraseEntryState, destroyHandle_cache]

theorem cacheStep_preserves (env : Env) (key u : String) (s : MgrState) (op : CacheOp)
    (hnn : EntriesNonneg s) (hnd : (s.cache.map Prod.fst).Nodup) (hku : KeyUrl key u s)
    (hop : AttachesTo env u op) :
    EntriesNonneg (cacheStep env key s op) ∧
    ((cacheStep env key s op).cache.map Prod.fst).Nodup ∧
    KeyUrl key u (cacheStep env key s op) ∧
    (∀ k e, mapFind s.cache k = some e → 0 < e.refCount →
      ∃ e2, mapFind (cacheStep env key s op).cache k = some e2 ∧
        e2.url = e.url ∧ e2.hls = e.hls) := by
  cases op with
  | attachOp v src =>
    have hres : resolveFinalUrl env.bandwidth env.isMobile src = some u := hop
    have htr : srcTruthy src = true := srcTruthy_of_resolve hres
    simp only [cacheStep]
    cases hex : mapFind s.cache key with
    | some existing =>
      by_cases hurl : existing.url = u
      · have hee : ensureEntry env key src s =
            (some existing, cancelPendingDispose key s) := by
          simp [ensureEntry, htr, hres, cancelPendingDispose_cache, hex, hurl]
        have hcache : (attach env v key src s).cache =
            mapSet s.cache key { existing with refCount := existing.refCount + 1 } := by
          have h1 := attach_cache_eq env v key src s (cancelPendingDispose key s)
            existing hee
          rwa [cancelPendingDispose_cache] at h1
        have hnn0 : (0 : Int) ≤ existing.refCount := hnn _ (mapFind_mem hex)
        refine ⟨?_, ?_, ?_, ?_⟩
        · intro p hp
          rw [hcache] at hp
          rcases mem_mapSet hp with h1 | h1
          · rw [h1]
            simp
            omega
          · exact hnn p h1
        · rw [hcache]
          exact mapSet_keys_nodup _ _ hnd
        · intro e hfe hpos
          rw [hcache, mapFind_mapSet_self] at hfe
          injection hfe with h
          rw [← h]
          exact hurl
        · intro k e hk hpos
          by_cases hkk : k = key
          · subst hkk
            rw [hex] at hk
            injection hk with h
            refine ⟨{ existing with refCount := existing.refCount + 1 }, ?_, ?_, ?_⟩
            · rw [hcache]
              exact mapFind_mapSet_self _ _ _
            · rw [← h]
            · rw [← h]
          · refine ⟨e, ?_, rfl, rfl⟩
            rw [hcache, mapFind_mapSet_ne _ _ _ _ (fun hh => hkk hh.symm)]
            exact hk
      · have hee : ensureEntry env key src s =
            (some (mkNewEntry env key u (eraseEntryState key existing.hls
                (cancelPendingDispose key s))).1,
             (mkNewEntry env key u (eraseEntryState key existing.hls
                (cancelPendingDispose key s))).2) := by
          simp [ensureEntry, htr, hres, cancelPendingDispose_cache, hex, hurl]
        have hSEc : (eraseEntryState key existing.hls
            (cancelPendingDispose key s)).cache = mapErase s.cache key := by
          rw [eraseEntryState_cache, cancelPendingDispose_cache]
        have hnnE : EntriesNonneg (eraseEntryState key existing.hls
            (cancelPendingDispose key s)) := by
          intro p hp
          rw [hSEc] at hp
          exact hnn p (List.mem_of_mem_filter hp)
        have hndE : ((eraseEntryState key existing.hls
            (cancelPendingDispose key s)).cache.map Prod.fst).Nodup := by
          rw [hSEc]
          exact List.Nodup.sublist (mapErase_keys_sublist _ _) hnd
        obtain ⟨cnn, csub, csurv⟩ := cleanupCacheIfNeeded_spec _ hndE hnnE
        obtain ⟨hmkurl, hmkrc, hmkcache⟩ := mkNewEntry_spec env key u
          (eraseEntryState key existing.hls (cancelPendingDispose key s))
        have hcache : (attach env v key src s).cache =
            mapSet (cleanupCacheIfNeeded (eraseEntryState key existing.hls
              (cancelPendingDispose key s))).cache key
              { (mkNewEntry env key u (eraseEntryState key existing.hls
                  (cancelPendingDispose key s))).1 with
                refCount := (mkNewEntry env key u (eraseEntryState key existing.hls
                  (cancelPendingDispose key s))).1.refCount + 1 } := by
          have h1 := attach_cache_eq env v key src s _ _ hee
          rw [hmkcache, mapSet_mapSet] at h1
          exact h1
        have hclnd : ((cleanupCacheIfNeeded (eraseEntryState key existing.hls
            (cancelPendingDispose key s))).cache.map Prod.fst).Nodup :=
          List.Nodup.sublist csub hndE
        obtain ⟨f1, f2, f3, f4⟩ := attach_fresh_facts key u _ _ hmkurl hmkrc cnn hclnd
        refine ⟨?_, ?_, ?_, ?_⟩
        · intro p hp
          rw [hcache] at hp
          exact f1 p hp
        · rw [hcache]
          exact f2
        · intro e hfe hpos
          rw [hcache] at hfe
          exact f3 e hfe
        · intro k e hk hpos
          by_cases hkk : k = key
          · subst hkk
            rw [hex] at hk
            injection hk with h
            rw [← h] at hpos
            exact absurd (hku existing hex hpos) hurl
          · have h1 : mapFind (eraseEntryState key existing.hls
                (cancelPendingDispose key s)).cache k = some e := by
              rw [hSEc, mapFind_mapErase_ne _ _ _ (fun hh => hkk hh.symm)]
              exact hk
            refine ⟨e, ?_, rfl, rfl⟩
            rw [hcache]
            exact f4 k e hkk (csurv k e h1 hpos)
    | none =>
      have hee : ensureEntry env key src s =
          (some (mkNewEntry env key u (cancelPendingDispose key s)).1,
           (mkNewEntry env key u (cancelPendingDispose key s)).2) := by
        simp [ensureEntry, htr, hres, cancelPendingDispose_cache, hex]
      have hSEc : (cancelPendingDispose key s).cache = s.cache :=
        cancelPendingDispose_cache key s
      have hnnE : EntriesNonneg (cancelPendingDispose key s) := by
        intro p hp
        rw [hSEc] at hp
        exact hnn p hp
      have hndE : ((cancelPendingDispose key s).cache.map Prod.fst).Nodup := by
        rw [hSEc]
        exact hnd
      obtain ⟨cnn, csub, csurv⟩ := cleanupCacheIfNeeded_spec _ hndE hnnE
      obtain ⟨hmkurl, hmkrc, hmkcache⟩ := mkNewEntry_spec env key u
        (cancelPendingDispose key s)
      have hcache : (attach env v key src s).cache =
          mapSet (cleanupCacheIfNeeded (cancelPendingDispose key s)).cache key
            { (mkNewEntry env key u (cancelPendingDispose key s)).1 with
              refCount :=
                (mkNewEntry env key u (cancelPendingDispose key s)).1.refCount + 1 } := by
        have h1 := attach_cache_eq env v key src s _ _ hee
        rw [hmkcache, mapSet_mapSet] at h1
        exact h1
      have hclnd : ((cleanupCacheIfNeeded (cancelPendingDispose key s)).cache.map
          Prod.fst).Nodup := List.Nodup.sublist csub hndE
      obtain ⟨f1, f2, f3, f4⟩ := attach_fresh_facts key u _ _ hmkurl hmkrc cnn hclnd
      refine ⟨?_, ?_, ?_, ?_⟩
      · intro p hp
        rw [hcache] at hp
        exact f1 p hp
      · rw [hcache]
        exact f2
      · intro e hfe hpos
        rw [hcache] at hfe
        exact f3 e hfe
      · intro k e hk hpos
        by_cases hkk : k = key
        · subst hkk
          rw [hex] at hk
          exact absurd hk (by simp)
        · have h1 : mapFind (cancelPendingDispose key s).cache k = some e := by
            rw [hSEc]
            exact hk
          refine ⟨e, ?_, rfl, rfl⟩
          rw [hcache]
          exact f4 k e hkk (csurv k e h1 hpos)
  | detachOp vid sc =>
    simp only [cacheStep]
    cases hex : mapFind s.cache key with
    | none =>
      have hd : detach key vid sc s = s := by
        simp [detach, hex]
      rw [hd]
      exact ⟨hnn, hnd, hku, fun k e hk _ => ⟨e, hk, rfl, rfl⟩⟩
    | some entry0 =>
      have hcache := detach_cache_eq key vid sc s entry0 hex
      refine ⟨?_, ?_, ?_, ?_⟩
      · intro p hp
        rw [hcache] at hp
        rcases mem_mapSet hp with h1 | h1
        · rw [h1]
          exact le_max_left 0 _
        · exact hnn p h1
      · rw [hcache]
        exact mapSet_keys_nodup _ _ hnd
      · intro e hfe hpos
        rw [hcache, mapFind_mapSet_self] at hfe
        injection hfe with h
        rw [← h] at hpos ⊢
        have hm : (0 : Int) < max 0 (entry0.refCount - 1) := hpos
        have h2 : (0 : Int) < entry0.refCount := by
          rcases lt_max_iff.mp hm with h3 | h3
          · omega
          · omega
        exact hku entry0 hex h2
      · intro k e hk hpos
        by_cases hkk : k = key
        · subst hkk
          rw [hex] at hk
          injection hk with h
          refine ⟨{ entry0 with refCount := max 0 (entry0.refCount - 1) }, ?_, ?_, ?_⟩
          · rw [hcache]
            exact mapFind_mapSet_self _ _ _
          · rw [← h]
          · rw [← h]
        · refine ⟨e, ?_, rfl, rfl⟩
          rw [hcache, mapFind_mapSet_ne _ _ _ _ (fun hh => hkk hh.symm)]
          exact hk
  | fireTimerOp =>
    simp only [cacheStep]
    cases hdt : mapFind s.disposeTimeouts key with
    | none =>
      have hf : fireDisposeTimer key s = s := by
        simp [fireDisposeTimer, hdt]
      rw [hf]
      exact ⟨hnn, hnd, hku, fun k e hk _ => ⟨e, hk, rfl, rfl⟩⟩
    | some tid =>
      cases hex : mapFind s.cache key with
      | none =>
        have hf : (fireDisposeTimer key s).cache = s.cache := by
          simp [fireDisposeTimer, hdt, hex]
        refine ⟨?_, ?_, ?_, ?_⟩
        · intro p hp
          rw [hf] at hp
          exact hnn p hp
        · rw [hf]
          exact hnd
        · intro e hfe hpos
          rw [hf] at hfe
          exact hku e hfe hpos
        · intro k e hk hpos
          refine ⟨e, ?_, rfl, rfl⟩
          rw [hf]
          exact hk
      | some entry =>
        by_cases hrc : entry.refCount ≤ 0
        · have hf : (fireDisposeTimer key s).cache = mapErase s.cache key := by
            simp [fireDisposeTimer, hdt, hex, hrc, destroyHandle_cache]
          refine ⟨?_, ?_, ?_, ?_⟩
          · intro p hp
            rw [hf] at hp
            exact hnn p (List.mem_of_mem_filter hp)
          · rw [hf]
            exact List.Nodup.sublist (mapErase_keys_sublist _ _) hnd
          · intro e hfe hpos
            rw [hf, mapFind_mapErase_self] at hfe
            exact absurd hfe (by simp)
          · intro k e hk hpos
            by_cases hkk : k = key
            · subst hkk
              rw [hex] at hk
              injection hk with h
              rw [← h] at hpos
              omega
            · refine ⟨e, ?_, rfl, rfl⟩
              rw [hf, mapFind_mapErase_ne _ _ _ (fun hh => hkk hh.symm)]
              exact hk
        · have hf : (fireDisposeTimer key s).cache = s.cache := by
            simp [fireDisposeTimer, hdt, hex, hrc]
          refine ⟨?_, ?_, ?_, ?_⟩
          · intro p hp
            rw [hf] at hp
            exact hnn p hp
          · rw [hf]
            exact hnd
          · intro e hfe hpos
            rw [hf] at hfe
            exact hku e hfe hpos
          · intro k e hk hpos
            refine ⟨e, ?_, rfl, rfl⟩
            rw [hf]
            exact hk

theorem cacheRun_preserves (env : Env) (key u : String) (ops : List CacheOp)
    (s : MgrState) (hnn : EntriesNonneg s) (hnd : (s.cache.map Prod.fst).Nodup)
    (hku : KeyUrl key u s) (hops : ∀ op ∈ ops, AttachesTo env u op) :
    EntriesNonneg (cacheRun env key s ops) ∧
    ((cacheRun env key s ops).cache.map Prod.fst).Nodup ∧
    KeyUrl key u (cacheRun env key s ops) := by
  induction ops generalizing s with
  | nil => exact ⟨hnn, hnd, hku⟩
  | cons op rest ih =>
    obtain ⟨a, b, c, _⟩ := cacheStep_preserves env key u s op hnn hnd hku
      (hops op (List.mem_cons_self _ _))
    exact ih (cacheStep env key s op) a b c
      (fun o ho => hops o (List.mem_cons_of_mem _ ho))

theorem cacheRun_append_one (env : Env) (key : String) (s : MgrState)
    (pre : List CacheOp) (op : CacheOp) :
    cacheRun env key s (pre ++ [op]) = cacheStep env key (cacheRun env key s pre) op := by
  simp [cacheRun, List.foldl_append]

/-! ## Cache claim theorems -/

/-- C7 counterexample: an `attach` whose source resolves to a different
URL destroys the existing entry even while its refcount is positive — the
first entry (refcount 1, handle 0) is destroyed by the second attach. -/
theorem attach_url_change_destroys_live_entry :
    mapFind (attach envPlain 1 "k" srcHlsA mgrInit).cache "k" =
      some { url := "a.m3u8", hls := some 0, refCount := 1 } ∧
    (attach envPlain 1 "k" srcHlsA mgrInit).destroyedHandles = [] ∧
    (attach envPlain 1 "k" srcHlsB
      (attach envPlain 1 "k" srcHlsA mgrInit)).destroyedHandles = [0] ∧
    mapFind (attach envPlain 1 "k" srcHlsB
      (attach envPlain 1 "k" srcHlsA mgrInit)).cache "k" =
      some { url := "b.m3u8", hls := some 1, refCount := 1 } := by
  refine ⟨by decide, by decide, by decide, by decide⟩

/-- C7 (amended): for any sequence of attach/detach/disposal-timer events
on a cache key whose attaches all resolve to the entry's URL, every
refcount stays non-negative at every point of the run, and an entry whose
refcount is positive is never destroyed by a step — it survives with its
URL and stream handle intact.  (Without the same-URL proviso an attach
that resolves to a different URL destroys the key's entry regardless of
its refcount.) -/
theorem refcount_nonneg_live_entry_safe (env : Env) (key u : String)
    (ops : List CacheOp) (s : MgrState)
    (hnn : EntriesNonneg s) (hnd : (s.cache.map Prod.fst).Nodup)
    (hku : KeyUrl key u s) (hops : ∀ op ∈ ops, AttachesTo env u op) :
    (∀ pre post, ops = pre ++ post → EntriesNonneg (cacheRun env key s pre)) ∧
    (∀ pre op post, ops = pre ++ op :: post →
      ∀ k e, mapFind (cacheRun env key s pre).cache k = some e → 0 < e.refCount →
        ∃ e2, mapFind (cacheRun env key s (pre ++ [op])).cache k = some e2 ∧
          e2.url = e.url ∧ e2.hls = e.hls) := by
  constructor
  · intro pre post hsplit
    have hpre : ∀ o ∈ pre, AttachesTo env u o := by
      intro o ho
      apply hops
      rw [hsplit]
      exact List.mem_append_left _ ho
    exact (cacheRun_preserves env key u pre s hnn hnd hku hpre).1
  · intro pre op post hsplit k e hk hpos
    have hpre : ∀ o ∈ pre, AttachesTo env u o := by
      intro o ho
      apply hops
      rw [hsplit]
      exact List.mem_append_left _ ho
    obtain ⟨a, b, c⟩ := cacheRun_preserves env key u pre s hnn hnd hku hpre
    have hopg : AttachesTo env u op := by
      apply hops
      rw [hsplit]
      exact List.mem_append_right _ (List.mem_cons_self _ _)
    obtain ⟨_, _, _, surv⟩ :=
      cacheStep_preserves env key u (cacheRun env key s pre) op a b c hopg
    obtain ⟨e2, h1, h2, h3⟩ := surv k e hk hpos
    refine ⟨e2, ?_, h2, h3⟩
    rw [cacheRun_append_one]
    exact h1

/-- Witness for the amended C7: one attach followed by one detach on a
fresh manager. -/
theorem refcount_nonneg_live_entry_safe_witness :
    (EntriesNonneg mgrInit ∧ (mgrInit.cache.map Prod.fst).Nodup ∧
     KeyUrl "carousel:1" "a.mp4" mgrInit ∧
     (∀ op ∈ [CacheOp.attachOp 1 srcMp4, CacheOp.detachOp none none],
        AttachesTo envPlain "a.mp4" op)) ∧
    ((∀ pre post,
        [CacheOp.attachOp 1 srcMp4, CacheOp.detachOp none none] = pre ++ post →
        EntriesNonneg (cacheRun envPlain "carousel:1" mgrInit pre)) ∧
     (∀ pre op post,
        [CacheOp.attachOp 1 srcMp4, CacheOp.detachOp none none] = pre ++ op :: post →
        ∀ k e, mapFind (cacheRun envPlain "carousel:1" mgrInit pre).cache k = some e →
          0 < e.refCount →
          ∃ e2, mapFind (cacheRun envPlain "carousel:1" mgrInit
              (pre ++ [op])).cache k = some e2 ∧
            e2.url = e.url ∧ e2.hls = e.hls)) := by
  have h1 : EntriesNonneg mgrInit := by
    intro p hp
    simp [mgrInit] at hp
  have h2 : (mgrInit.cache.map Prod.fst).Nodup := by
    simp [mgrInit]
  have h3 : KeyUrl "carousel:1" "a.mp4" mgrInit := by
    intro e he _
    simp [mgrInit, mapFind] at he
  have h4 : ∀ op ∈ [CacheOp.attachOp 1 srcMp4, CacheOp.detachOp none none],
      AttachesTo envPlain "a.mp4" op := by
    intro op hop
    rcases List.mem_cons.mp hop with h | h
    · rw [h]
      show resolveFinalUrl envPlain.bandwidth envPlain.isMobile srcMp4 = some "a.mp4"
      decide
    · rcases List.mem_cons.mp h with h5 | h5
      · rw [h5]
        trivial
      · simp at h5
  exact ⟨⟨h1, h2, h3, h4⟩,
    refcount_nonneg_live_entry_safe envPlain "carousel:1" "a.mp4" _ mgrInit h1 h2 h3 h4⟩

/-- C8 counterexample: attaching the same element, key, and resolved URL a
second time is not a no-op — it increments the entry's refcount from 1 to
2. -/
theorem attach_repeat_increments_refcount :
    mapFind (attach envPlain 1 "carousel:1" srcMp4 mgrInit).cache "carousel:1" =
      some { url := "a.mp4", hls := none, refCount := 1 } ∧
    mapFind (attach envPlain 1 "carousel:1" srcMp4
        (attach envPlain 1 "carousel:1" srcMp4 mgrInit)).cache "carousel:1" =
      some { url := "a.mp4", hls := none, refCount := 2 } := by
  refine ⟨by decide, by decide⟩

/-- C8 (amended): a repeated attach of the same element to the same key
and resolved URL is not a no-op: it always increments the entry's refcount
by one, leaving the entry's URL and stream handle intact and creating or
destroying nothing.  For a progressive entry (no stream handle) whose
element is already bound to the URL, nothing else changes; for a streaming
entry the engine's `attachMedia(video)` is re-invoked on every call (and
the element's bound source is untouched). -/
theorem attach_same_url_repeat (env : Env) (v : Nat) (key : String)
    (src : Option VideoSrc) (s : MgrState) (e : Entry)
    (hurl : resolveFinalUrl env.bandwidth env.isMobile src = some e.url)
    (hfind : mapFind s.cache key = some e)
    (htimer : mapFind s.disposeTimeouts key = none) :
    (∀ h, e.hls = some h →
      attach env v key src s =
        { s with cache := mapSet s.cache key { e with refCount := e.refCount + 1 }, hlsAttachCalls := s.hlsAttachCalls ++ [(h, v)] }) ∧
    (e.hls = none → mapFind s.videoSrc v = some e.url →
      attach env v key src s =
        { s with cache := mapSet s.cache key { e with refCount := e.refCount + 1 } }) ∧
    mapFind (attach env v key src s).cache key =
      some { e with refCount := e.refCount + 1 } := by
  have htr : srcTruthy src = true := srcTruthy_of_resolve hurl
  have hcpd : cancelPendingDispose key s = s := by
    simp [cancelPendingDispose, htimer]
  have hee : ensureEntry env key src s = (some e, s) := by
    simp [ensureEntry, htr, hurl, hcpd, hfind]
  refine ⟨?_, ?_, ?_⟩
  · intro h hh
    simp [attach, hee, hh]
  · intro hhls hvs
    simp [attach, hee, hhls, hvs]
  · have hc := attach_cache_eq env v key src s s e hee
    rw [hc]
    exact mapFind_mapSet_self _ _ _

/-- Witness for the amended C8, exercising both entry kinds: the second
attach of a repeated streaming (`a.m3u8`, handle 0) pair and of a repeated
progressive (`a.mp4`) pair. -/
theorem attach_same_url_repeat_witness :
    (resolveFinalUrl envPlain.bandwidth envPlain.isMobile srcHlsA =
       some ({ url := "a.m3u8", hls := some 0, refCount := 1 } : Entry).url ∧
     mapFind (attach envPlain 1 "k" srcHlsA mgrInit).cache "k" =
       some { url := "a.m3u8", hls := some 0, refCount := 1 } ∧
     mapFind (attach envPlain 1 "k" srcHlsA mgrInit).disposeTimeouts "k" = none ∧
     ({ url := "a.m3u8", hls := some 0, refCount := 1 } : Entry).hls = some 0) ∧
    ((∀ h, ({ url := "a.m3u8", hls := some 0, refCount := 1 } : Entry).hls = some h →
       attach envPlain 1 "k" srcHlsA (attach envPlain 1 "k" srcHlsA mgrInit) =
         { attach envPlain 1 "k" srcHlsA mgrInit with cache := mapSet (attach envPlain 1 "k" srcHlsA mgrInit).cache "k" { ({ url := "a.m3u8", hls := some 0, refCount := 1 } : Entry) with refCount := ({ url := "a.m3u8", hls := some 0, refCount := 1 } : Entry).refCount + 1 }, hlsAttachCalls := (attach envPlain 1 "k" srcHlsA mgrInit).hlsAttachCalls ++ [(h, 1)] }) ∧
     mapFind (attach envPlain 1 "k" srcHlsA
        (attach envPlain 1 "k" srcHlsA mgrInit)).cache "k" =
       some { ({ url := "a.m3u8", hls := some 0, refCount := 1 } : Entry) with
         refCount := ({ url := "a.m3u8", hls := some 0, refCount := 1 } : Entry).refCount + 1 }) ∧
    (resolveFinalUrl envPlain.bandwidth envPlain.isMobile srcMp4 =
       some ({ url := "a.mp4", hls := none, refCount := 1 } : Entry).url ∧
     mapFind (attach envPlain 1 "carousel:1" srcMp4 mgrInit).cache "carousel:1" =
       some { url := "a.mp4", hls := none, refCount := 1 } ∧
     mapFind (attach envPlain 1 "carousel:1" srcMp4 mgrInit).disposeTimeouts
       "carousel:1" = none ∧
     ({ url := "a.mp4", hls := none, refCount := 1 } : Entry).hls = none ∧
     mapFind (attach envPlain 1 "carousel:1" srcMp4 mgrInit).videoSrc 1 =
       some ({ url := "a.mp4", hls := none, refCount := 1 } : Entry).url) ∧
    (attach envPlain 1 "carousel:1" srcMp4
        (attach envPlain 1 "carousel:1" srcMp4 mgrInit) =
      { attach envPlain 1 "carousel:1" srcMp4 mgrInit with
        cache := mapSet (attach envPlain 1 "carousel:1" srcMp4 mgrInit).cache
          "carousel:1"
          { ({ url := "a.mp4", hls := none, refCount := 1 } : Entry) with
            refCount :=
              ({ url := "a.mp4", hls := none, refCount := 1 } : Entry).refCount + 1 } } ∧
     mapFind (attach envPlain 1 "carousel:1" srcMp4
        (attach envPlain 1 "carousel:1" srcMp4 mgrInit)).cache "carousel:1" =
      some { ({ url := "a.mp4", hls := none, refCount := 1 } : Entry) with
        refCount :=
          ({ url := "a.mp4", hls := none, refCount := 1 } : Entry).refCount + 1 }) :=
  ⟨⟨by decide, by decide, by decide, by decide⟩,
    ⟨(attach_same_url_repeat envPlain 1 "k" srcHlsA
        (attach envPlain 1 "k" srcHlsA mgrInit)
        { url := "a.m3u8", hls := some 0, refCount := 1 }
        (by decide) (by decide) (by decide)).1,
     (attach_same_url_repeat envPlain 1 "k" srcHlsA
        (attach envPlain 1 "k" srcHlsA mgrInit)
        { url := "a.m3u8", hls := some 0, refCount := 1 }
        (by decide) (by decide) (by decide)).2.2⟩,
    ⟨by decide, by decide, by decide, by decide, by decide⟩,
    (attach_same_url_repeat envPlain 1 "carousel:1" srcMp4
        (attach envPlain 1 "carousel:1" srcMp4 mgrInit)
        { url := "a.mp4", hls := none, refCount := 1 }
        (by decide) (by decide) (by decide)).2.1 (by decide) (by decide),
    (attach_same_url_repeat envPlain 1 "carousel:1" srcMp4
        (attach envPlain 1 "carousel:1" srcMp4 mgrInit)
        { url := "a.mp4", hls := none, refCount := 1 }
        (by decide) (by decide) (by decide)).2.2⟩

end Riyils
